import Mathlib

/-!
# Timed auctions: a shallow embedding of the auction lifecycle engine

The Go packages `entity`, `internal_error`, `auction`, `bid`, `auction_usecase` and
`bid_usecase` are embedded as pure functions.  Everything the Go code reads from
its surroundings is an explicit argument:

* a clock reading (`time.Now()`) is an argument of type `time.Time`;
* a fresh identifier (`uuid.New().String()`) is an argument of type `String`;
* the environment (`os.Getenv`) is the string value of the variable, `""` when unset;
* a store collection is the list of its documents in natural order, and the outcome of a
  driver call that can fail for reasons outside the program is an argument
  (`none`: the call goes through, `some msg`: the driver reports the error `msg`);
* the regular expression engine behind the `$regex` operator is an argument of the filtered
  scan.

A Go function returning `(T, error)` becomes a function into `Except error T`; a method
that mutates a collection also returns the collection after the call.
-/

/-! ## Package `time` (standard library, the part the program uses) -/

namespace time

/-- Instants, as nanoseconds since the Unix epoch. -/
abbrev Time := Int

/-- Durations: Go's `time.Duration` is an `int64` count of nanoseconds. -/
abbrev Duration := Int

/-- Two's complement wrap-around of 64-bit signed arithmetic. -/
def wrapInt64 (x : Int) : Int := (x + 2 ^ 63) % 2 ^ 64 - 2 ^ 63

def Second : Duration := 1000000000

def Minute : Duration := 60 * Second

/-- Multiplication of two `int64` values, as Go computes `n * time.Second`. -/
def Duration.mul (a b : Duration) : Duration := wrapInt64 (a * b)

/-- Method `Time.Unix()`: whole seconds since the epoch, rounded down. -/
def Time.Unix (t : Time) : Int := t / 1000000000

/-- Function `time.Unix(sec, nsec)`. -/
def Unix (sec nsec : Int) : Time := sec * 1000000000 + nsec

/-- Method `Time.Add(d)`. -/
def Time.Add (t : Time) (d : Duration) : Time := t + d

/-- Method `Time.After(u)`: `t` is strictly later than `u`. -/
def Time.After (t u : Time) : Bool := decide (u < t)

end time

/-! ## Package `strconv` (standard library): `Atoi` -/

namespace strconv

/-- Value of a run of ASCII decimal digits, most significant first, continuing from `acc`;
`none` as soon as a byte is not a digit. -/
def parseDigits : List Char → Nat → Option Nat
  | [], acc => some acc
  | c :: cs, acc =>
    if c.isDigit then parseDigits cs (acc * 10 + (c.toNat - 48)) else none

/-- Unsigned part of `Atoi`: at least one digit, nothing but digits. -/
def parseUnsigned (cs : List Char) : Option Nat :=
  match cs with
  | [] => none
  | _ :: _ => parseDigits cs 0

/-- Signed reading of the text: an optional `+` or `-`, then the digits. -/
def parseSigned (cs : List Char) : Option Int :=
  match cs with
  | '-' :: rest => Option.map (fun (n : Nat) => -(n : Int)) (parseUnsigned rest)
  | '+' :: rest => Option.map (fun (n : Nat) => (n : Int)) (parseUnsigned rest)
  | _ => Option.map (fun (n : Nat) => (n : Int)) (parseUnsigned cs)

/-- Function `strconv.Atoi` on a 64-bit platform: `some n` when the text is a base-10 integer
that fits `int`, `none` when `Atoi` returns an error (syntax or range). -/
def Atoi (s : String) : Option Int :=
  match parseSigned s.data with
  | some n => if -(2 ^ 63 : Int) ≤ n ∧ n < 2 ^ 63 then some n else none
  | none => none

end strconv

/-! ## Errors -/

/-- Go `error` values that occur in the program. -/
inductive error where
  /-- the sentinel `mongo.ErrNoDocuments` -/
  | ErrNoDocuments
  /-- the value built by `errors.New(text)` -/
  | New (text : String)
  /-- an error reported by the store driver (connectivity, I/O, duplicate key) -/
  | driver (text : String)
deriving DecidableEq, Repr

/-- Method `Error()` of the `error` interface. -/
def error.Error : error → String
  | .ErrNoDocuments => "mongo: no documents in result"
  | .New text => text
  | .driver text => text

namespace internal_error

structure InternalError where
  Message : String
  Err : String
  Code : Int
deriving DecidableEq, Repr

def NewInternalServerError (message : String) : InternalError :=
  { Message := message, Err := "internal_server_error", Code := 500 }

def NewBadRequestError (message : String) : InternalError :=
  { Message := message, Err := "bad_request", Code := 400 }

def NewNotFoundError (message : String) : InternalError :=
  { Message := message, Err := "not_found", Code := 404 }

end internal_error

/-! ## Package `entity` -/

namespace entity

abbrev AuctionStatus := Int

abbrev Active : AuctionStatus := 0

abbrev Completed : AuctionStatus := 1

abbrev ProductCondition := Int

abbrev New : ProductCondition := 0

abbrev Used : ProductCondition := 1

abbrev Refurbished : ProductCondition := 2

structure Auction where
  Id : String
  ProductName : String
  Category : String
  Description : String
  Condition : ProductCondition
  Status : AuctionStatus
  Timestamp : time.Time
  ExpiresAt : time.Time
deriving DecidableEq, Repr

/-- The stored form of an auction; `Timestamp` and `ExpiresAt` are whole epoch seconds. -/
structure AuctionEntityMongo where
  Id : String
  ProductName : String
  Category : String
  Description : String
  Condition : ProductCondition
  Status : AuctionStatus
  Timestamp : Int
  ExpiresAt : Int
deriving DecidableEq, Repr

/-- Amounts are `float64` in the source.  Only their order is used by the program; finite
`float64` values are rationals and compare as such. -/
abbrev float64 := ℚ

structure Bid where
  Id : String
  UserId : String
  AuctionId : String
  Amount : float64
  Timestamp : time.Time
deriving DecidableEq, Repr

structure BidEntityMongo where
  Id : String
  UserId : String
  AuctionId : String
  Amount : float64
  Timestamp : Int
deriving DecidableEq, Repr

/-- Function `entity.CreateAuction`: `id` is the fresh uuid, `now1` and `now2` the two clock
readings, in program order. -/
def CreateAuction (id : String) (now1 now2 : time.Time)
    (productName category description : String) (condition : ProductCondition)
    (duration : time.Duration) : Except error Auction :=
  .ok { Id := id
        ProductName := productName
        Category := category
        Description := description
        Condition := condition
        Status := Active
        Timestamp := now1
        ExpiresAt := time.Time.Add now2 duration }

/-- Method `Auction.IsExpired`, with `now` the clock reading. -/
def Auction.IsExpired (a : Auction) (now : time.Time) : Bool :=
  time.Time.After now a.ExpiresAt

/-- Function `entity.CreateBid`: `id` is the fresh uuid, `now` the clock reading. -/
def CreateBid (id : String) (now : time.Time) (userId auctionId : String)
    (amount : float64) : Except error Bid :=
  .ok { Id := id, UserId := userId, AuctionId := auctionId, Amount := amount, Timestamp := now }

end entity

/-! ## The document store (driver calls on one collection)

A collection is the list of its documents in natural order.  The `fault` argument of a call
is the error the driver reports for reasons outside the program, if any. -/

namespace mongo

/-- Driver call `Collection.InsertOne`: `key` reads the `_id` of a document; the store refuses a second
document with an `_id` already present. -/
def InsertOne {α : Type} (key : α → String) (fault : Option String) (coll : List α) (doc : α) :
    Except error (List α) :=
  match fault with
  | some msg => .error (.driver msg)
  | none =>
    if coll.any (fun d => key d == key doc) then .error (.driver "E11000 duplicate key error")
    else .ok (coll ++ [doc])

/-- Driver call `Collection.Find`: a cursor over the documents matching the filter. -/
def Find {α : Type} (fault : Option String) (coll : List α) (filter : α → Bool) :
    Except error (List α) :=
  match fault with
  | some msg => .error (.driver msg)
  | none => .ok (coll.filter filter)

/-- Driver call `Cursor.All`: decodes every document of the cursor. -/
def Cursor.All {α : Type} (fault : Option String) (cursor : List α) : Except error (List α) :=
  match fault with
  | some msg => .error (.driver msg)
  | none => .ok cursor

/-- Applies `update` to the first document matching `filter`, if there is one. -/
def updateFirst {α : Type} (filter : α → Bool) (update : α → α) : List α → List α
  | [] => []
  | d :: ds => if filter d then update d :: ds else d :: updateFirst filter update ds

/-- Driver call `Collection.UpdateOne`: updates at most one matching document; no match is not an error. -/
def UpdateOne {α : Type} (fault : Option String) (coll : List α) (filter : α → Bool)
    (update : α → α) : Except error (List α) :=
  match fault with
  | some msg => .error (.driver msg)
  | none => .ok (updateFirst filter update coll)

/-- Driver call `Collection.FindOne(filter).Decode`: the first matching document in natural order, or
`ErrNoDocuments`. -/
def FindOne {α : Type} (fault : Option String) (coll : List α) (filter : α → Bool) :
    Except error α :=
  match fault with
  | some msg => .error (.driver msg)
  | none =>
    match coll.find? filter with
    | some d => .ok d
    | none => .error .ErrNoDocuments

/-- Driver call `Collection.FindOne(filter, options.FindOne().SetSort(..)).Decode`: the matching documents
are sorted by `le` (documents that compare equal keep their natural order) and the first is
returned. -/
def FindOneSorted {α : Type} (fault : Option String) (coll : List α) (filter : α → Bool)
    (le : α → α → Bool) : Except error α :=
  match fault with
  | some msg => .error (.driver msg)
  | none =>
    match ((coll.filter filter).mergeSort le).head? with
    | some d => .ok d
    | none => .error .ErrNoDocuments

/-- The store keeps `_id` unique within a collection: no two documents share a key. -/
def uniqueKeys {α : Type} (key : α → String) (coll : List α) : Prop :=
  (coll.map key).Nodup

instance {α : Type} (key : α → String) (coll : List α) : Decidable (uniqueKeys key coll) := by
  unfold uniqueKeys; infer_instance

end mongo

/-! ## Package `auction`: the auction repository -/

namespace auction

/-- The repository; its lock makes every method below run as one step. -/
structure AuctionRepository where
  Collection : List entity.AuctionEntityMongo
deriving DecidableEq, Repr

/-- Function `calculateAuctionDuration`; the argument is the value of `AUCTION_DURATION`
(`os.Getenv` gives `""` when the variable is unset). -/
def calculateAuctionDuration (durationStr : String) : time.Duration :=
  if durationStr = "" then 5 * time.Minute
  else
    match strconv.Atoi durationStr with
    | none => 5 * time.Minute
    | some durationSeconds => time.Duration.mul durationSeconds time.Second

/-- Function `getCheckInterval`; the argument is the value of `AUCTION_CHECK_INTERVAL`. -/
def getCheckInterval (intervalStr : String) : time.Duration :=
  if intervalStr = "" then 10 * time.Second
  else
    match strconv.Atoi intervalStr with
    | none => 10 * time.Second
    | some intervalSeconds => time.Duration.mul intervalSeconds time.Second

/-- Method `AuctionRepository.CreateAuction`.  Returns the error, the auction as left behind the
pointer argument, and the repository after the call. -/
def AuctionRepository.CreateAuction (ar : AuctionRepository) (durationStr : String)
    (now : time.Time) (fault : Option String) (auction : entity.Auction) :
    Option error × entity.Auction × AuctionRepository :=
  let duration := calculateAuctionDuration durationStr
  let auction := { auction with ExpiresAt := time.Time.Add now duration }
  let auctionEntityMongo : entity.AuctionEntityMongo :=
    { Id := auction.Id
      ProductName := auction.ProductName
      Category := auction.Category
      Description := auction.Description
      Condition := auction.Condition
      Status := auction.Status
      Timestamp := time.Time.Unix auction.Timestamp
      ExpiresAt := time.Time.Unix auction.ExpiresAt }
  match mongo.InsertOne entity.AuctionEntityMongo.Id fault ar.Collection auctionEntityMongo with
  | .error err => (some err, auction, ar)
  | .ok coll => (none, auction, { ar with Collection := coll })

/-- The filter `{status: Active, expires_at: {$lte: now}}`. -/
def expiredFilter (now : Int) (d : entity.AuctionEntityMongo) : Bool :=
  d.Status == entity.Active && decide (d.ExpiresAt ≤ now)

/-- One pass of the loop body of `closeExpiredAuctions`: a failed update is logged and the
loop continues. -/
def closeOne (updateFault : String → Option String) (coll : List entity.AuctionEntityMongo)
    (auction : entity.AuctionEntityMongo) : List entity.AuctionEntityMongo :=
  match mongo.UpdateOne (updateFault auction.Id) coll (fun d => d.Id == auction.Id)
      (fun d => { d with Status := entity.Completed }) with
  | .error _ => coll
  | .ok coll' => coll'

/-- Method `AuctionRepository.closeExpiredAuctions` (one sweep tick).  `clock` is the clock reading;
`findFault` and `allFault` are the outcomes of the query and of reading its cursor;
`updateFault id` is the outcome of the update of the auction `id`. -/
def AuctionRepository.closeExpiredAuctions (ar : AuctionRepository) (clock : time.Time)
    (findFault allFault : Option String) (updateFault : String → Option String) :
    Option error × AuctionRepository :=
  let now := time.Time.Unix clock
  match mongo.Find findFault ar.Collection (expiredFilter now) with
  | .error err => (some err, ar)
  | .ok cursor =>
    match mongo.Cursor.All allFault cursor with
    | .error err => (some err, ar)
    | .ok expiredAuctions =>
      (none, { ar with Collection := expiredAuctions.foldl (closeOne updateFault) ar.Collection })

/-- What one sweep tick over the query result `expired` makes of the document `d`: it is set to
Completed when it is the target of an update that goes through. -/
def sweptDocument (updateFault : String → Option String)
    (expired : List entity.AuctionEntityMongo) (d : entity.AuctionEntityMongo) :
    entity.AuctionEntityMongo :=
  if expired.any (fun e => e.Id == d.Id && (updateFault e.Id).isNone) then
    { d with Status := entity.Completed }
  else d

/-- The conversion of a stored auction to `entity.Auction`. -/
def toAuction (m : entity.AuctionEntityMongo) : entity.Auction :=
  { Id := m.Id
    ProductName := m.ProductName
    Category := m.Category
    Description := m.Description
    Condition := m.Condition
    Status := m.Status
    Timestamp := time.Unix m.Timestamp 0
    ExpiresAt := time.Unix m.ExpiresAt 0 }

/-- Method `AuctionRepository.FindAuctionById`: `.ok none` is the Go result `(nil, nil)`. -/
def AuctionRepository.FindAuctionById (ar : AuctionRepository) (fault : Option String)
    (id : String) : Except error (Option entity.Auction) :=
  match mongo.FindOne fault ar.Collection (fun d => d.Id == id) with
  | .error err => if err = error.ErrNoDocuments then .ok none else .error err
  | .ok auctionEntityMongo => .ok (some (toAuction auctionEntityMongo))

/-- Method `AuctionRepository.UpdateAuctionStatus`. -/
def AuctionRepository.UpdateAuctionStatus (ar : AuctionRepository) (fault : Option String)
    (id : String) (status : entity.AuctionStatus) : Option error × AuctionRepository :=
  match mongo.UpdateOne fault ar.Collection (fun d => d.Id == id)
      (fun d => { d with Status := status }) with
  | .error err => (some err, ar)
  | .ok coll => (none, { ar with Collection := coll })

/-- Method `AuctionRepository.FindExpiredAuctions`, with `clock` the clock reading. -/
def AuctionRepository.FindExpiredAuctions (ar : AuctionRepository) (clock : time.Time)
    (findFault allFault : Option String) : Except error (List entity.Auction) :=
  let now := time.Time.Unix clock
  match mongo.Find findFault ar.Collection (expiredFilter now) with
  | .error err => .error err
  | .ok cursor =>
    match mongo.Cursor.All allFault cursor with
    | .error err => .error err
    | .ok auctionEntitiesMongo => .ok (auctionEntitiesMongo.map toAuction)

end auction

/-! ## Package `bid`: the bid repository -/

namespace bid

structure BidRepository where
  Collection : List entity.BidEntityMongo
  AuctionRepository : auction.AuctionRepository
deriving DecidableEq, Repr

/-- Method `BidRepository.CreateBid`.  `now` is the clock reading of `IsExpired`,
`lookupFault` the outcome of the auction lookup, `insertFault` the outcome of the insert. -/
def BidRepository.CreateBid (br : BidRepository) (now : time.Time)
    (lookupFault insertFault : Option String) (bid : entity.Bid) :
    Option error × BidRepository :=
  match br.AuctionRepository.FindAuctionById lookupFault bid.AuctionId with
  | .error err => (some err, br)
  | .ok none => (some (error.New "auction not found"), br)
  | .ok (some auction) =>
    if auction.Status ≠ entity.Active then (some (error.New "auction is not active"), br)
    else if auction.IsExpired now then (some (error.New "auction has expired"), br)
    else
      let bidEntityMongo : entity.BidEntityMongo :=
        { Id := bid.Id
          UserId := bid.UserId
          AuctionId := bid.AuctionId
          Amount := bid.Amount
          Timestamp := time.Time.Unix bid.Timestamp }
      match mongo.InsertOne entity.BidEntityMongo.Id insertFault br.Collection bidEntityMongo with
      | .error err => (some err, br)
      | .ok coll => (none, { br with Collection := coll })

/-- Method `BidRepository.FindWinningBidByAuctionId`: the filter is `{auction_id: auctionId}`,
the sort is by `amount`, descending.  The returned bid carries no timestamp (the zero
`time.Time`, written `0` here). -/
def BidRepository.FindWinningBidByAuctionId (br : BidRepository) (fault : Option String)
    (auctionId : String) : Except error (Option entity.Bid) :=
  match mongo.FindOneSorted fault br.Collection (fun d => d.AuctionId == auctionId)
      (fun a b => decide (b.Amount ≤ a.Amount)) with
  | .error err => if err = error.ErrNoDocuments then .ok none else .error err
  | .ok bidEntityMongo =>
    .ok (some { Id := bidEntityMongo.Id
                UserId := bidEntityMongo.UserId
                AuctionId := bidEntityMongo.AuctionId
                Amount := bidEntityMongo.Amount
                Timestamp := 0 })

end bid

/-! ## Package `auction_usecase` -/

namespace auction_usecase

structure AuctionInputDTO where
  ProductName : String
  Category : String
  Description : String
  Condition : entity.ProductCondition
deriving DecidableEq, Repr

structure AuctionOutputDTO where
  Id : String
  ProductName : String
  Category : String
  Description : String
  Condition : entity.ProductCondition
  Status : entity.AuctionStatus
  Timestamp : time.Time
  ExpiresAt : time.Time
deriving DecidableEq, Repr

/-- The binding rules of `AuctionInputDTO`: `required,min=1`, `required,min=2`,
`required,min=10,max=200`, `oneof=0 1 2`. -/
def AuctionInputDTO.valid (input : AuctionInputDTO) : Prop :=
  1 ≤ input.ProductName.length ∧ 2 ≤ input.Category.length ∧
  10 ≤ input.Description.length ∧ input.Description.length ≤ 200 ∧
  (input.Condition = 0 ∨ input.Condition = 1 ∨ input.Condition = 2)

instance (input : AuctionInputDTO) : Decidable input.valid := by
  unfold AuctionInputDTO.valid; infer_instance

/-- The conversion of an auction to the output record. -/
def toOutput (a : entity.Auction) : AuctionOutputDTO :=
  { Id := a.Id
    ProductName := a.ProductName
    Category := a.Category
    Description := a.Description
    Condition := a.Condition
    Status := a.Status
    Timestamp := a.Timestamp
    ExpiresAt := a.ExpiresAt }

/-- Method `CreateAuctionUseCase.Execute` over the repository `ar`.  `id` is the fresh uuid,
`now1` and `now2` are the clock readings of `entity.CreateAuction`, `now3` the clock reading of
the repository, `durationStr` the value of `AUCTION_DURATION`, `fault` the outcome of the
insert. -/
def CreateAuctionUseCase.Execute (ar : auction.AuctionRepository) (id : String)
    (now1 now2 now3 : time.Time) (durationStr : String) (fault : Option String)
    (input : AuctionInputDTO) :
    Except internal_error.InternalError AuctionOutputDTO × auction.AuctionRepository :=
  match entity.CreateAuction id now1 now2 input.ProductName input.Category input.Description
      input.Condition 0 with
  | .error err => (.error (internal_error.NewInternalServerError err.Error), ar)
  | .ok auction =>
    match ar.CreateAuction durationStr now3 fault auction with
    | (some err, _, ar') => (.error (internal_error.NewInternalServerError err.Error), ar')
    | (none, auction, ar') => (.ok (toOutput auction), ar')

/-- Method `FindAuctionUseCase.FindAuctionById`. -/
def FindAuctionUseCase.FindAuctionById (ar : auction.AuctionRepository) (fault : Option String)
    (id : String) : Except internal_error.InternalError AuctionOutputDTO :=
  match ar.FindAuctionById fault id with
  | .error err => .error (internal_error.NewInternalServerError err.Error)
  | .ok none => .error (internal_error.NewNotFoundError "auction not found")
  | .ok (some auction) => .ok (toOutput auction)

end auction_usecase

/-! ## Package `bid_usecase` -/

namespace bid_usecase

structure BidInputDTO where
  UserId : String
  AuctionId : String
  Amount : entity.float64
deriving DecidableEq, Repr

structure BidOutputDTO where
  Id : String
  UserId : String
  AuctionId : String
  Amount : entity.float64
deriving DecidableEq, Repr

/-- Method `CreateBidUseCase.Execute` over the repository `br`.  `id` is the fresh uuid,
`now0` the clock reading of `entity.CreateBid`, `now` that of the expiry check. -/
def CreateBidUseCase.Execute (br : bid.BidRepository) (id : String) (now0 now : time.Time)
    (lookupFault insertFault : Option String) (input : BidInputDTO) :
    Except internal_error.InternalError BidOutputDTO × bid.BidRepository :=
  match entity.CreateBid id now0 input.UserId input.AuctionId input.Amount with
  | .error err => (.error (internal_error.NewInternalServerError err.Error), br)
  | .ok b =>
    match br.CreateBid now lookupFault insertFault b with
    | (some err, br') => (.error (internal_error.NewBadRequestError err.Error), br')
    | (none, br') =>
      (.ok { Id := b.Id, UserId := b.UserId, AuctionId := b.AuctionId, Amount := b.Amount }, br')

/-- Method `FindBidUseCase.FindWinningBidByAuctionId`. -/
def FindBidUseCase.FindWinningBidByAuctionId (br : bid.BidRepository) (fault : Option String)
    (auctionId : String) : Except internal_error.InternalError BidOutputDTO :=
  match br.FindWinningBidByAuctionId fault auctionId with
  | .error err => .error (internal_error.NewInternalServerError err.Error)
  | .ok none => .error (internal_error.NewNotFoundError "no bids found for this auction")
  | .ok (some b) =>
    .ok { Id := b.Id, UserId := b.UserId, AuctionId := b.AuctionId, Amount := b.Amount }

end bid_usecase

/-! ## Regular expressions of the store and substring containment -/

namespace mongo

/-- Two characters are equal up to ASCII letter case. -/
def eqFold (a b : Char) : Bool := a.toLower == b.toLower

/-- The text `needle` starts the text `subject`, letter case ignored. -/
def startsWithFold : List Char → List Char → Bool
  | [], _ => true
  | _ :: _, [] => false
  | n :: ns, c :: cs => eqFold n c && startsWithFold ns cs

/-- The text `needle` occurs somewhere in the text, letter case ignored. -/
def occursFold (needle : List Char) : List Char → Bool
  | [] => startsWithFold needle []
  | c :: cs => startsWithFold needle (c :: cs) || occursFold needle cs

/-- The words of the specification: `subject` contains `needle` as a case-insensitive
substring. -/
def containsFold (subject needle : String) : Bool := occursFold needle.data subject.data

/-- The characters that a regular expression does not read literally (outside a class). -/
def regexMeta (c : Char) : Bool :=
  c ∈ ['\\', '^', '$', '.', '[', '|', '(', ')', '?', '*', '+', '{']

/-- One pattern character against one subject character, for a pattern in which `.` is the
only metacharacter: `.` matches every character but a newline, any other character matches
itself, up to letter case when `fold` is set. -/
def regexCharMatches (fold : Bool) (p c : Char) : Bool :=
  if p = '.' then c != '\n' else if fold then eqFold p c else p == c

/-- The pattern matches at the front of the subject. -/
def regexMatchHere (fold : Bool) : List Char → List Char → Bool
  | [], _ => true
  | _ :: _, [] => false
  | p :: ps, c :: cs => regexCharMatches fold p c && regexMatchHere fold ps cs

/-- The pattern matches somewhere in the subject (a regular expression is not anchored). -/
def regexSearch (fold : Bool) (pattern : List Char) : List Char → Bool
  | [] => regexMatchHere fold pattern []
  | c :: cs => regexMatchHere fold pattern (c :: cs) || regexSearch fold pattern cs

/-- The regular expression engine of the store on the patterns in which `.` is the only
metacharacter used (letters, digits, spaces, `.`): `pattern` compiled with `options` (`"i"`
ignores letter case) gives a test on subjects.  It stands for the engine on these patterns
only. -/
def regexDotOnly (pattern options : String) : Option (String → Bool) :=
  some (fun subject => regexSearch (options.data.contains 'i') pattern.data subject.data)

end mongo

/-! ## Package `auction`: the filtered scan, and the operations as steps -/

namespace auction

/-- Method `AuctionRepository.FindAuctions`.  The filter document has `status` when
`status >= 0`, `category` when the argument is not empty and
`product_name: {$regex: productName, $options: "i"}` when `productName` is not empty.
`regex` is the regular expression engine of the store: `regex pattern options` is the test
the compiled pattern performs, `none` when the store refuses the pattern. -/
def AuctionRepository.FindAuctions (ar : AuctionRepository)
    (regex : String → String → Option (String → Bool)) (findFault allFault : Option String)
    (status : entity.AuctionStatus) (category productName : String) :
    Except error (List entity.Auction) :=
  let statusOk : entity.AuctionEntityMongo → Bool :=
    fun d => if status ≥ 0 then d.Status == status else true
  let categoryOk : entity.AuctionEntityMongo → Bool :=
    fun d => if category ≠ "" then d.Category == category else true
  let nameOk : Option (entity.AuctionEntityMongo → Bool) :=
    if productName ≠ "" then
      Option.map (fun (m : String → Bool) (d : entity.AuctionEntityMongo) => m d.ProductName)
        (regex productName "i")
    else some (fun _ => true)
  match nameOk with
  | none => .error (error.driver "Regular expression is invalid")
  | some nameOk =>
    match mongo.Find findFault ar.Collection
        (fun d => statusOk d && categoryOk d && nameOk d) with
    | .error err => .error err
    | .ok cursor =>
      match mongo.Cursor.All allFault cursor with
      | .error err => .error err
      | .ok auctionEntitiesMongo => .ok (auctionEntitiesMongo.map toAuction)

/-- The mutating operations of the auction store, each with what it reads from its
surroundings. -/
inductive StoreOp where
  | CreateAuction (durationStr : String) (now : time.Time) (fault : Option String)
      (auction : entity.Auction)
  | UpdateAuctionStatus (fault : Option String) (id : String) (status : entity.AuctionStatus)
  | closeExpiredAuctions (clock : time.Time) (findFault allFault : Option String)
      (updateFault : String → Option String)

/-- The repository after one operation. -/
def AuctionRepository.step (ar : AuctionRepository) : StoreOp → AuctionRepository
  | .CreateAuction durationStr now fault auction =>
    (ar.CreateAuction durationStr now fault auction).2.2
  | .UpdateAuctionStatus fault id status => (ar.UpdateAuctionStatus fault id status).2
  | .closeExpiredAuctions clock findFault allFault updateFault =>
    (ar.closeExpiredAuctions clock findFault allFault updateFault).2

/-- The repository after a sequence of operations. -/
def AuctionRepository.run (ar : AuctionRepository) (ops : List StoreOp) : AuctionRepository :=
  ops.foldl AuctionRepository.step ar

/-- An operation that can only complete auctions: anything but an explicit status update to
a status other than Completed. -/
def StoreOp.completesOnly : StoreOp → Bool
  | .UpdateAuctionStatus _ _ status => status == entity.Completed
  | _ => true

end auction

/-! ## The ticker of the expiration checker -/

namespace time

/-- Function `time.NewTicker(d)`: it panics unless `d > 0`; otherwise the ticker fires every
`d`. -/
def NewTicker (d : Duration) : Except String Duration :=
  if d ≤ 0 then .error "non-positive interval for NewTicker" else .ok d

end time

namespace auction

/-- The start of `AuctionRepository.startAuctionExpirationChecker`: the interval of the ticker
it builds, or the panic of `time.NewTicker`; the argument is the value of
`AUCTION_CHECK_INTERVAL`. -/
def startAuctionExpirationChecker (intervalStr : String) : Except String time.Duration :=
  let checkInterval := getCheckInterval intervalStr
  time.NewTicker checkInterval

end auction

namespace auction_usecase

/-- Method `FindAuctionUseCase.FindAuctions`. -/
def FindAuctionUseCase.FindAuctions (ar : auction.AuctionRepository)
    (regex : String → String → Option (String → Bool)) (findFault allFault : Option String)
    (status : entity.AuctionStatus) (category productName : String) :
    Except internal_error.InternalError (List AuctionOutputDTO) :=
  match ar.FindAuctions regex findFault allFault status category productName with
  | .error err => .error (internal_error.NewInternalServerError err.Error)
  | .ok auctions => .ok (auctions.map toOutput)

end auction_usecase

/-! ## Package `auction_controller` -/

namespace auction_controller

/-- The status argument that `AuctionController.FindAuctions` computes from the `status` query
parameter (`""` when the parameter is absent). -/
def auctionStatus (status : String) : Int :=
  if status = "0" then 0 else if status = "1" then 1 else -1

end auction_controller

/-! ## Creation -/

section Creation

open auction auction_usecase

/-- The create path returns exactly when the insert goes through, and the returned record is
then determined by the input, the identifier, the first clock reading of
`entity.CreateAuction` and the clock reading of the repository. -/
lemma CreateAuctionUseCase.Execute_ok (ar : AuctionRepository) (id : String)
    (now1 now2 now3 : time.Time) (durationStr : String) (input : AuctionInputDTO)
    (hfresh : ∀ d ∈ ar.Collection, d.Id ≠ id) :
    CreateAuctionUseCase.Execute ar id now1 now2 now3 durationStr none input =
      (.ok { Id := id
             ProductName := input.ProductName
             Category := input.Category
             Description := input.Description
             Condition := input.Condition
             Status := entity.Active
             Timestamp := now1
             ExpiresAt := now3 + calculateAuctionDuration durationStr },
       { Collection := ar.Collection ++
          [{ Id := id
             ProductName := input.ProductName
             Category := input.Category
             Description := input.Description
             Condition := input.Condition
             Status := entity.Active
             Timestamp := time.Time.Unix now1
             ExpiresAt := time.Time.Unix (now3 + calculateAuctionDuration durationStr) }] }) := by
  have hany : (ar.Collection.any fun d => d.Id == id) = false := by
    rw [List.any_eq_false]
    intro d hd
    simpa using hfresh d hd
  simp [CreateAuctionUseCase.Execute, entity.CreateAuction, AuctionRepository.CreateAuction,
    mongo.InsertOne, hany, toOutput, time.Time.Add]

/-- C1 as stated fails.  (a) With `AUCTION_DURATION=5`, creation time read at instant `0` and the
repository reading the clock one nanosecond later, the create path returns an Active auction
whose expiry is `5s + 1ns` after its creation time, not exactly `5s`.  (b) With
`AUCTION_DURATION=0` and all clock readings equal, the expiry is not later than the creation
time. -/
theorem C1_expiry_not_exactly_duration_after_creation :
    ¬ (∀ out, (CreateAuctionUseCase.Execute ⟨[]⟩ "a1" 0 0 1 "5" none
            ⟨"Widget", "Tools", "0123456789", entity.New⟩).1 = .ok out →
          out.Status = entity.Active ∧ out.Timestamp < out.ExpiresAt ∧
          out.ExpiresAt - out.Timestamp = calculateAuctionDuration "5") ∧
    ¬ (∀ out, (CreateAuctionUseCase.Execute ⟨[]⟩ "a1" 7 7 7 "0" none
            ⟨"Widget", "Tools", "0123456789", entity.New⟩).1 = .ok out →
          out.Status = entity.Active ∧ out.Timestamp < out.ExpiresAt ∧
          out.ExpiresAt - out.Timestamp = calculateAuctionDuration "0") := by
  constructor
  · intro h
    have h1 := (h _ rfl).2.2
    revert h1
    decide
  · intro h
    have h1 := (h _ rfl).2.1
    revert h1
    decide

/-- C1 (amended): for every create-auction input, every value of `AUCTION_DURATION` with
configured duration `d`, and every store without the fresh identifier, the create path returns
an auction with status Active, creation time the first clock reading `now1` and expiry
`now3 + d`, where `now3` is the clock reading of the repository.  Hence expiry minus creation
is `d + (now3 - now1)`: exactly `d` when the two readings coincide, at least `d` when the clock
does not go back, and the expiry is strictly later than the creation time when moreover
`d > 0`. -/
theorem C1_created_auction_active_and_expiry (ar : AuctionRepository) (id : String)
    (now1 now2 now3 : time.Time) (durationStr : String) (input : AuctionInputDTO)
    (hfresh : ∀ d ∈ ar.Collection, d.Id ≠ id) :
    ∃ out ar', CreateAuctionUseCase.Execute ar id now1 now2 now3 durationStr none input
        = (.ok out, ar') ∧
      out.Status = entity.Active ∧
      out.Timestamp = now1 ∧
      out.ExpiresAt = now3 + calculateAuctionDuration durationStr ∧
      out.ExpiresAt - out.Timestamp = calculateAuctionDuration durationStr + (now3 - now1) ∧
      (now3 = now1 → out.ExpiresAt - out.Timestamp = calculateAuctionDuration durationStr) ∧
      (now1 ≤ now3 → calculateAuctionDuration durationStr ≤ out.ExpiresAt - out.Timestamp) ∧
      (now1 ≤ now3 → 0 < calculateAuctionDuration durationStr →
        out.Timestamp < out.ExpiresAt) := by
  refine ⟨_, _, CreateAuctionUseCase.Execute_ok ar id now1 now2 now3 durationStr input hfresh,
    rfl, rfl, rfl, ?_, ?_, ?_, ?_⟩
  · show now3 + calculateAuctionDuration durationStr - now1 = _
    ring
  · intro h
    show now3 + calculateAuctionDuration durationStr - now1 = _
    rw [h]; ring
  · intro h
    show _ ≤ now3 + calculateAuctionDuration durationStr - now1
    linarith
  · intro h hd
    show now1 < now3 + calculateAuctionDuration durationStr
    linarith

/-- C1 (amended) at an empty store, `AUCTION_DURATION=5`, creation read at instant `0` and the
repository reading the clock one nanosecond later. -/
theorem C1_created_auction_active_and_expiry_witness :
    ∃ out ar', CreateAuctionUseCase.Execute ⟨[]⟩ "a1" 0 0 1 "5" none
        ⟨"Widget", "Tools", "0123456789", entity.New⟩ = (.ok out, ar') ∧
      out.Status = entity.Active ∧
      out.Timestamp = 0 ∧
      out.ExpiresAt = 1 + calculateAuctionDuration "5" ∧
      out.ExpiresAt - out.Timestamp = calculateAuctionDuration "5" + (1 - 0) ∧
      ((1 : time.Time) = 0 → out.ExpiresAt - out.Timestamp = calculateAuctionDuration "5") ∧
      ((0 : time.Time) ≤ 1 → calculateAuctionDuration "5" ≤ out.ExpiresAt - out.Timestamp) ∧
      ((0 : time.Time) ≤ 1 → 0 < calculateAuctionDuration "5" → out.Timestamp < out.ExpiresAt) :=
  C1_created_auction_active_and_expiry ⟨[]⟩ "a1" 0 0 1 "5"
    ⟨"Widget", "Tools", "0123456789", entity.New⟩ (by simp)

end Creation

/-! ## The store: unique keys -/

section Store

variable {α : Type}

lemma mongo.updateFirst_eq_map (key : α → String) (i : String) (f : α → α) :
    ∀ coll : List α, mongo.uniqueKeys key coll →
      mongo.updateFirst (fun d => key d == i) f coll
        = coll.map (fun d => if key d = i then f d else d) := by
  intro coll
  induction coll with
  | nil => intro _; rfl
  | cons d ds ih =>
    intro hu
    have hu' : (key d ∉ ds.map key) ∧ mongo.uniqueKeys key ds := by
      simpa [mongo.uniqueKeys] using hu
    by_cases hd : key d = i
    · have hrest : ds.map (fun x => if key x = i then f x else x) = ds := by
        have : ∀ x ∈ ds, (fun x => if key x = i then f x else x) x = x := by
          intro x hx
          have hxi : key x ≠ i := by
            intro hxi
            exact hu'.1 (hd ▸ hxi ▸ List.mem_map_of_mem key hx)
          simp [hxi]
        rw [List.map_congr_left this, List.map_id']
      simp [mongo.updateFirst, hd, hrest]
    · simp [mongo.updateFirst, hd, ih hu'.2]

lemma mongo.uniqueKeys_map (key : α → String) (g : α → α) (hg : ∀ d, key (g d) = key d)
    (coll : List α) (hu : mongo.uniqueKeys key coll) : mongo.uniqueKeys key (coll.map g) := by
  unfold mongo.uniqueKeys at hu ⊢
  have : (coll.map g).map key = coll.map key := by
    rw [List.map_map]
    exact List.map_congr_left (fun d _ => hg d)
  rw [this]
  exact hu

lemma mongo.find?_of_mem (key : α → String) :
    ∀ (coll : List α) (d : α), mongo.uniqueKeys key coll → d ∈ coll →
      coll.find? (fun x => key x == key d) = some d := by
  intro coll
  induction coll with
  | nil => intro d _ hd; cases hd
  | cons x xs ih =>
    intro d hu hd
    have hu' : (key x ∉ xs.map key) ∧ mongo.uniqueKeys key xs := by
      simpa [mongo.uniqueKeys] using hu
    rcases List.mem_cons.mp hd with rfl | hd
    · simp
    · have hne : key x ≠ key d := by
        intro h
        exact hu'.1 (h ▸ List.mem_map_of_mem key hd)
      have hb : (key x == key d) = false := by simpa using hne
      rw [List.find?_cons, hb]
      exact ih d hu'.2 hd

lemma mongo.find?_eq_none (key : α → String) (coll : List α) (i : String)
    (h : ∀ d ∈ coll, key d ≠ i) : coll.find? (fun x => key x == i) = none := by
  rw [List.find?_eq_none]
  intro d hd
  simpa using h d hd

/-- An insert that goes through keeps the keys unique. -/
lemma mongo.InsertOne_uniqueKeys (key : α → String) (fault : Option String) (coll coll' : List α)
    (doc : α) (hu : mongo.uniqueKeys key coll)
    (h : mongo.InsertOne key fault coll doc = .ok coll') : mongo.uniqueKeys key coll' := by
  unfold mongo.InsertOne at h
  cases fault with
  | some msg => simp at h
  | none =>
    simp only at h
    split at h
    · cases h
    · rename_i hany
      cases h
      unfold mongo.uniqueKeys at hu ⊢
      rw [List.map_append, List.nodup_append]
      refine ⟨hu, by simp, ?_⟩
      intro a ha hb
      simp only [List.map_cons, List.map_nil, List.mem_singleton] at hb
      subst hb
      obtain ⟨d, hd, hda⟩ := List.mem_map.mp ha
      apply hany
      rw [List.any_eq_true]
      exact ⟨d, hd, by simpa using hda⟩

end Store

/-! ## The expiration sweep -/

section Sweep

open auction

lemma auction.closeOne_eq_map (updateFault : String → Option String)
    (coll : List entity.AuctionEntityMongo) (e : entity.AuctionEntityMongo)
    (hu : mongo.uniqueKeys entity.AuctionEntityMongo.Id coll) :
    closeOne updateFault coll e = coll.map (sweptDocument updateFault [e]) := by
  unfold closeOne mongo.UpdateOne
  cases hf : updateFault e.Id with
  | some msg =>
    have : ∀ d ∈ coll, sweptDocument updateFault [e] d = d := by
      intro d _
      simp [sweptDocument, hf]
    simp only
    rw [List.map_congr_left this, List.map_id']
  | none =>
    simp only
    rw [mongo.updateFirst_eq_map entity.AuctionEntityMongo.Id e.Id _ coll hu]
    apply List.map_congr_left
    intro d _
    by_cases hd : d.Id = e.Id
    · simp [sweptDocument, hf, hd]
    · have hd' : ¬ e.Id = d.Id := fun h => hd h.symm
      simp [sweptDocument, hd, hd']

lemma auction.sweptDocument_Id (updateFault : String → Option String)
    (expired : List entity.AuctionEntityMongo) (d : entity.AuctionEntityMongo) :
    (sweptDocument updateFault expired d).Id = d.Id := by
  unfold sweptDocument
  split <;> rfl

/-- The loop of `closeExpiredAuctions` over unique keys: document by document. -/
lemma auction.foldl_closeOne_eq_map (updateFault : String → Option String)
    (expired : List entity.AuctionEntityMongo) :
    ∀ coll : List entity.AuctionEntityMongo,
      mongo.uniqueKeys entity.AuctionEntityMongo.Id coll →
      expired.foldl (closeOne updateFault) coll = coll.map (sweptDocument updateFault expired) := by
  induction expired with
  | nil =>
    intro coll _
    have : ∀ d ∈ coll, sweptDocument updateFault [] d = d := by
      intro d _; simp [sweptDocument]
    rw [List.foldl_nil, List.map_congr_left this, List.map_id']
  | cons e es ih =>
    intro coll hu
    rw [List.foldl_cons, auction.closeOne_eq_map updateFault coll e hu,
      ih _ (mongo.uniqueKeys_map _ _ (auction.sweptDocument_Id updateFault [e]) coll hu),
      List.map_map]
    apply List.map_congr_left
    intro d _
    simp only [Function.comp, sweptDocument, List.any_cons, List.any_nil, Bool.or_false]
    by_cases h1 : (e.Id == d.Id && (updateFault e.Id).isNone) = true
    · simp only [h1, if_true, Bool.true_or]
      split <;> rfl
    · simp only [h1, Bool.false_or]
      simp

/-- A lookup by the identifier of a stored document finds that document. -/
lemma auction.FindAuctionById_of_mem (ar : AuctionRepository) (d : entity.AuctionEntityMongo)
    (hu : mongo.uniqueKeys entity.AuctionEntityMongo.Id ar.Collection)
    (hd : d ∈ ar.Collection) :
    ar.FindAuctionById none d.Id = .ok (some (toAuction d)) := by
  simp [AuctionRepository.FindAuctionById, mongo.FindOne,
    mongo.find?_of_mem entity.AuctionEntityMongo.Id ar.Collection d hu hd]

/-- The collection after a sweep tick, whatever the outcomes of the store calls. -/
lemma auction.closeExpiredAuctions_collection (ar : AuctionRepository) (clock : time.Time)
    (findFault allFault : Option String) (updateFault : String → Option String)
    (hu : mongo.uniqueKeys entity.AuctionEntityMongo.Id ar.Collection) :
    (ar.closeExpiredAuctions clock findFault allFault updateFault).2.Collection = ar.Collection ∨
    (ar.closeExpiredAuctions clock findFault allFault updateFault).2.Collection =
      ar.Collection.map (sweptDocument updateFault
        (ar.Collection.filter (expiredFilter (time.Time.Unix clock)))) := by
  cases findFault with
  | some msg => left; rfl
  | none =>
    cases allFault with
    | some msg => left; rfl
    | none =>
      right
      exact auction.foldl_closeOne_eq_map updateFault _ ar.Collection hu

/-- C2: for every store (with unique identifiers, as the store guarantees) and every clock
reading, a sweep tick whose store calls all succeed returns no error, and every auction that
was Active with `expires_at <= now` (whole epoch seconds) before the tick is stored with
status Completed after it: a lookup by its identifier reports Completed. -/
theorem C2_sweep_completes_expired_active (ar : AuctionRepository) (clock : time.Time)
    (a : entity.AuctionEntityMongo)
    (hu : mongo.uniqueKeys entity.AuctionEntityMongo.Id ar.Collection)
    (ha : a ∈ ar.Collection) (hs : a.Status = entity.Active)
    (he : a.ExpiresAt ≤ time.Time.Unix clock) :
    ∃ ar', ar.closeExpiredAuctions clock none none (fun _ => none) = (none, ar') ∧
      { a with Status := entity.Completed } ∈ ar'.Collection ∧
      ar'.FindAuctionById none a.Id
        = .ok (some (toAuction { a with Status := entity.Completed })) ∧
      (toAuction { a with Status := entity.Completed }).Status = entity.Completed := by
  have hcoll : (ar.closeExpiredAuctions clock none none (fun _ => none)).2.Collection =
      ar.Collection.map (sweptDocument (fun _ => none)
        (ar.Collection.filter (expiredFilter (time.Time.Unix clock)))) :=
    auction.foldl_closeOne_eq_map _ _ ar.Collection hu
  have hu' : mongo.uniqueKeys entity.AuctionEntityMongo.Id
      (ar.closeExpiredAuctions clock none none (fun _ => none)).2.Collection := by
    rw [hcoll]
    exact mongo.uniqueKeys_map _ _ (auction.sweptDocument_Id _ _) _ hu
  have hswept : sweptDocument (fun _ => none)
      (ar.Collection.filter (expiredFilter (time.Time.Unix clock))) a
        = { a with Status := entity.Completed } := by
    have hany : ((ar.Collection.filter (expiredFilter (time.Time.Unix clock))).any
        (fun e => e.Id == a.Id && (none : Option String).isNone)) = true := by
      rw [List.any_eq_true]
      refine ⟨a, List.mem_filter.mpr ⟨ha, ?_⟩, by simp⟩
      simp [expiredFilter, hs, he]
    simp only [sweptDocument, hany, if_true]
  have hmem : { a with Status := entity.Completed } ∈
      (ar.closeExpiredAuctions clock none none (fun _ => none)).2.Collection := by
    rw [hcoll, ← hswept]
    exact List.mem_map_of_mem _ ha
  refine ⟨(ar.closeExpiredAuctions clock none none (fun _ => none)).2, rfl, hmem, ?_, rfl⟩
  exact auction.FindAuctionById_of_mem _ _ hu' hmem

/-- C2 at the store of the repository's test: one auction, Active, expired for five minutes. -/
theorem C2_sweep_completes_expired_active_witness :
    ∃ ar', (AuctionRepository.mk
        [⟨"expired-auction-id", "Expired Product", "Test", "This auction is already expired",
          entity.New, entity.Active, 400, 700⟩]).closeExpiredAuctions 1000000000000 none none
          (fun _ => none) = (none, ar') ∧
      ({ (⟨"expired-auction-id", "Expired Product", "Test", "This auction is already expired",
          entity.New, entity.Active, 400, 700⟩ : entity.AuctionEntityMongo)
          with Status := entity.Completed }) ∈ ar'.Collection ∧
      ar'.FindAuctionById none "expired-auction-id"
        = .ok (some (toAuction { (⟨"expired-auction-id", "Expired Product", "Test",
          "This auction is already expired", entity.New, entity.Active, 400, 700⟩ :
          entity.AuctionEntityMongo) with Status := entity.Completed })) ∧
      (toAuction { (⟨"expired-auction-id", "Expired Product", "Test",
          "This auction is already expired", entity.New, entity.Active, 400, 700⟩ :
          entity.AuctionEntityMongo) with Status := entity.Completed }).Status
        = entity.Completed :=
  C2_sweep_completes_expired_active
    ⟨[⟨"expired-auction-id", "Expired Product", "Test", "This auction is already expired",
      entity.New, entity.Active, 400, 700⟩]⟩ 1000000000000
    ⟨"expired-auction-id", "Expired Product", "Test", "This auction is already expired",
      entity.New, entity.Active, 400, 700⟩
    (by decide) (by simp) rfl (by decide)

/-- C3: for every store (with unique identifiers), every clock reading and every outcome of
the store calls, a sweep tick leaves every auction whose stored expiry is greater than `now`
(whole epoch seconds) as it is: the document is still in the collection, unchanged, and a
lookup by its identifier reports what it reported before the tick, status included. -/
theorem C3_sweep_keeps_unexpired (ar : AuctionRepository) (clock : time.Time)
    (findFault allFault : Option String) (updateFault : String → Option String)
    (a : entity.AuctionEntityMongo)
    (hu : mongo.uniqueKeys entity.AuctionEntityMongo.Id ar.Collection)
    (ha : a ∈ ar.Collection) (he : time.Time.Unix clock < a.ExpiresAt) :
    a ∈ (ar.closeExpiredAuctions clock findFault allFault updateFault).2.Collection ∧
    (ar.closeExpiredAuctions clock findFault allFault updateFault).2.FindAuctionById none a.Id
      = ar.FindAuctionById none a.Id ∧
    ar.FindAuctionById none a.Id = .ok (some (toAuction a)) ∧
    (toAuction a).Status = a.Status := by
  have hbefore := auction.FindAuctionById_of_mem ar a hu ha
  rcases auction.closeExpiredAuctions_collection ar clock findFault allFault updateFault hu
    with hcoll | hcoll
  · have hu' : mongo.uniqueKeys entity.AuctionEntityMongo.Id
        (ar.closeExpiredAuctions clock findFault allFault updateFault).2.Collection := by
      rw [hcoll]; exact hu
    have hmem : a ∈
        (ar.closeExpiredAuctions clock findFault allFault updateFault).2.Collection := by
      rw [hcoll]; exact ha
    exact ⟨hmem, by rw [auction.FindAuctionById_of_mem _ a hu' hmem, hbefore], hbefore, rfl⟩
  · have hu' : mongo.uniqueKeys entity.AuctionEntityMongo.Id
        (ar.closeExpiredAuctions clock findFault allFault updateFault).2.Collection := by
      rw [hcoll]
      exact mongo.uniqueKeys_map _ _ (auction.sweptDocument_Id _ _) _ hu
    have hswept : sweptDocument updateFault
        (ar.Collection.filter (expiredFilter (time.Time.Unix clock))) a = a := by
      have hany : ((ar.Collection.filter (expiredFilter (time.Time.Unix clock))).any
          (fun e => e.Id == a.Id && (updateFault e.Id).isNone)) = false := by
        rw [List.any_eq_false]
        intro e hmem hcontra
        have hein := (List.mem_filter.mp hmem).1
        have hexp := (List.mem_filter.mp hmem).2
        have hid : e.Id = a.Id := by
          simp only [Bool.and_eq_true, beq_iff_eq] at hcontra
          exact hcontra.1
        have hfe := mongo.find?_of_mem entity.AuctionEntityMongo.Id ar.Collection e hu hein
        have hfa := mongo.find?_of_mem entity.AuctionEntityMongo.Id ar.Collection a hu ha
        rw [hid, hfa] at hfe
        have hae : a = e := Option.some.inj hfe
        subst hae
        simp only [expiredFilter, Bool.and_eq_true, decide_eq_true_eq] at hexp
        omega
      simp only [sweptDocument, hany]
      rfl
    have hmem : a ∈
        (ar.closeExpiredAuctions clock findFault allFault updateFault).2.Collection := by
      have hm := List.mem_map_of_mem (sweptDocument updateFault
        (ar.Collection.filter (expiredFilter (time.Time.Unix clock)))) ha
      rw [hswept] at hm
      rw [hcoll]
      exact hm
    exact ⟨hmem, by rw [auction.FindAuctionById_of_mem _ a hu' hmem, hbefore], hbefore, rfl⟩

/-- C3 at a store with one expired and one running auction: the running auction is
untouched by the tick. -/
theorem C3_sweep_keeps_unexpired_witness :
    (⟨"a2", "Widget", "Tools", "0123456789", entity.New, entity.Active, 900, 1200⟩ :
        entity.AuctionEntityMongo) ∈
      ((AuctionRepository.mk
        [⟨"a1", "Old", "Tools", "0123456789", entity.New, entity.Active, 400, 700⟩,
         ⟨"a2", "Widget", "Tools", "0123456789", entity.New, entity.Active, 900, 1200⟩]
        ).closeExpiredAuctions 1000000000000 none none (fun _ => none)).2.Collection ∧
    ((AuctionRepository.mk
        [⟨"a1", "Old", "Tools", "0123456789", entity.New, entity.Active, 400, 700⟩,
         ⟨"a2", "Widget", "Tools", "0123456789", entity.New, entity.Active, 900, 1200⟩]
        ).closeExpiredAuctions 1000000000000 none none (fun _ => none)).2.FindAuctionById none
          "a2"
      = (AuctionRepository.mk
        [⟨"a1", "Old", "Tools", "0123456789", entity.New, entity.Active, 400, 700⟩,
         ⟨"a2", "Widget", "Tools", "0123456789", entity.New, entity.Active, 900, 1200⟩]
        ).FindAuctionById none "a2" ∧
    (AuctionRepository.mk
        [⟨"a1", "Old", "Tools", "0123456789", entity.New, entity.Active, 400, 700⟩,
         ⟨"a2", "Widget", "Tools", "0123456789", entity.New, entity.Active, 900, 1200⟩]
        ).FindAuctionById none "a2"
      = .ok (some (toAuction
          ⟨"a2", "Widget", "Tools", "0123456789", entity.New, entity.Active, 900, 1200⟩)) ∧
    (toAuction ⟨"a2", "Widget", "Tools", "0123456789", entity.New, entity.Active, 900, 1200⟩
      ).Status = entity.Active :=
  C3_sweep_keeps_unexpired
    ⟨[⟨"a1", "Old", "Tools", "0123456789", entity.New, entity.Active, 400, 700⟩,
      ⟨"a2", "Widget", "Tools", "0123456789", entity.New, entity.Active, 900, 1200⟩]⟩
    1000000000000 none none (fun _ => none)
    ⟨"a2", "Widget", "Tools", "0123456789", entity.New, entity.Active, 900, 1200⟩
    (by decide) (by simp) (by decide)

end Sweep

/-! ## Bid placement -/

section BidPlacement

open auction bid bid_usecase

/-- A lookup by an identifier that no stored document has reports the not-found sentinel. -/
lemma auction.FindAuctionById_absent (ar : AuctionRepository) (id : String)
    (h : ∀ d ∈ ar.Collection, d.Id ≠ id) : ar.FindAuctionById none id = .ok none := by
  simp [AuctionRepository.FindAuctionById, mongo.FindOne,
    mongo.find?_eq_none entity.AuctionEntityMongo.Id ar.Collection id h]

/-- A lookup that the driver fails reports the driver's error. -/
lemma auction.FindAuctionById_fault (ar : AuctionRepository) (msg id : String) :
    ar.FindAuctionById (some msg) id = .error (error.driver msg) := by
  simp [AuctionRepository.FindAuctionById, mongo.FindOne]

/-- The use case reports every error of the repository as a bad request, and passes the
repository on. -/
lemma bid_usecase.Execute_of_error (br br' : BidRepository) (id : String) (now0 now : time.Time)
    (lookupFault insertFault : Option String) (input : BidInputDTO) (err : error)
    (h : br.CreateBid now lookupFault insertFault
      { Id := id, UserId := input.UserId, AuctionId := input.AuctionId, Amount := input.Amount,
        Timestamp := now0 } = (some err, br')) :
    CreateBidUseCase.Execute br id now0 now lookupFault insertFault input
      = (.error (internal_error.NewBadRequestError err.Error), br') := by
  simp [CreateBidUseCase.Execute, entity.CreateBid, h]

/-- C4: for every user id, every amount and every auction stored with status Completed,
placing a bid fails, whatever the outcomes of the store calls: the use case returns an error of
the bad-request class (code 400), the repository is unchanged (no bid is inserted), and when
the lookup goes through the error is the rejection "auction is not active". -/
theorem C4_bid_on_completed_auction_fails (br : BidRepository) (id : String)
    (now0 now : time.Time) (lookupFault insertFault : Option String) (input : BidInputDTO)
    (a : entity.AuctionEntityMongo)
    (hu : mongo.uniqueKeys entity.AuctionEntityMongo.Id br.AuctionRepository.Collection)
    (ha : a ∈ br.AuctionRepository.Collection) (hid : a.Id = input.AuctionId)
    (hs : a.Status = entity.Completed) :
    ∃ e, CreateBidUseCase.Execute br id now0 now lookupFault insertFault input = (.error e, br) ∧
      e.Code = 400 ∧ e.Err = "bad_request" ∧
      (lookupFault = none → e = internal_error.NewBadRequestError "auction is not active") := by
  cases lookupFault with
  | some msg =>
    refine ⟨internal_error.NewBadRequestError msg, ?_, rfl, rfl, by simp⟩
    apply bid_usecase.Execute_of_error br br id now0 now (some msg) insertFault input
      (error.driver msg)
    simp [BidRepository.CreateBid, auction.FindAuctionById_fault]
  | none =>
    refine ⟨internal_error.NewBadRequestError "auction is not active", ?_, rfl, rfl,
      fun _ => rfl⟩
    apply bid_usecase.Execute_of_error br br id now0 now none insertFault input
      (error.New "auction is not active")
    have hfind := auction.FindAuctionById_of_mem br.AuctionRepository a hu ha
    rw [hid] at hfind
    simp [BidRepository.CreateBid, hfind, toAuction, hs]

/-- C4 at a store with one Completed auction and an amount of 10. -/
theorem C4_bid_on_completed_auction_fails_witness :
    ∃ e, CreateBidUseCase.Execute
        ⟨[], ⟨[⟨"a1", "Widget", "Tools", "0123456789", entity.New, entity.Completed, 0, 100⟩]⟩⟩
        "b1" 5 5 none none ⟨"u1", "a1", 10⟩
        = (.error e,
           ⟨[], ⟨[⟨"a1", "Widget", "Tools", "0123456789", entity.New, entity.Completed, 0, 100⟩]⟩⟩)
      ∧ e.Code = 400 ∧ e.Err = "bad_request" ∧
      ((none : Option String) = none →
        e = internal_error.NewBadRequestError "auction is not active") :=
  C4_bid_on_completed_auction_fails
    ⟨[], ⟨[⟨"a1", "Widget", "Tools", "0123456789", entity.New, entity.Completed, 0, 100⟩]⟩⟩
    "b1" 5 5 none none ⟨"u1", "a1", 10⟩
    ⟨"a1", "Widget", "Tools", "0123456789", entity.New, entity.Completed, 0, 100⟩
    (by decide) (by simp) rfl rfl

/-- C5 as stated fails: a bid on an auction id absent from the (here empty) auction store is
rejected with the message "auction not found", but the error carries the bad-request class
(code 400), not the not-found class (code 404) that absent lookups report. -/
theorem C5_absent_auction_reported_as_bad_request :
    CreateBidUseCase.Execute ⟨[], ⟨[]⟩⟩ "b1" 5 5 none none ⟨"u1", "a1", 10⟩
      = (.error ⟨"auction not found", "bad_request", 400⟩, ⟨[], ⟨[]⟩⟩) ∧
    (⟨"auction not found", "bad_request", 400⟩ : internal_error.InternalError)
      ≠ internal_error.NewNotFoundError "auction not found" ∧
    (⟨"auction not found", "bad_request", 400⟩ : internal_error.InternalError).Code ≠ 404 := by
  refine ⟨rfl, by decide, by decide⟩

/-- C5 (amended): for every auction id absent from the auction store, placing a bid (the lookup
going through) fails with the message "auction not found", reported to the caller as a bad
request (code 400, `bad_request`), and inserts no bid. -/
theorem C5_bid_on_absent_auction_fails (br : BidRepository) (id : String)
    (now0 now : time.Time) (insertFault : Option String) (input : BidInputDTO)
    (habs : ∀ d ∈ br.AuctionRepository.Collection, d.Id ≠ input.AuctionId) :
    CreateBidUseCase.Execute br id now0 now none insertFault input
      = (.error (internal_error.NewBadRequestError "auction not found"), br) ∧
    (internal_error.NewBadRequestError "auction not found").Message = "auction not found" ∧
    (internal_error.NewBadRequestError "auction not found").Code = 400 := by
  refine ⟨?_, rfl, rfl⟩
  apply bid_usecase.Execute_of_error br br id now0 now none insertFault input
    (error.New "auction not found")
  simp [BidRepository.CreateBid,
    auction.FindAuctionById_absent br.AuctionRepository input.AuctionId habs]

/-- C5 (amended) at a store whose only auction has another identifier. -/
theorem C5_bid_on_absent_auction_fails_witness :
    CreateBidUseCase.Execute
        ⟨[], ⟨[⟨"a2", "Widget", "Tools", "0123456789", entity.New, entity.Active, 0, 100⟩]⟩⟩
        "b1" 5 5 none none ⟨"u1", "a1", 10⟩
      = (.error (internal_error.NewBadRequestError "auction not found"),
         ⟨[], ⟨[⟨"a2", "Widget", "Tools", "0123456789", entity.New, entity.Active, 0, 100⟩]⟩⟩) ∧
    (internal_error.NewBadRequestError "auction not found").Message = "auction not found" ∧
    (internal_error.NewBadRequestError "auction not found").Code = 400 :=
  C5_bid_on_absent_auction_fails
    ⟨[], ⟨[⟨"a2", "Widget", "Tools", "0123456789", entity.New, entity.Active, 0, 100⟩]⟩⟩
    "b1" 5 5 none ⟨"u1", "a1", 10⟩ (by decide)

/-- Method `CreateBid` either returns an error and changes nothing, or appends the bid after
having found the auction stored, Active and not expired. -/
lemma bid.CreateBid_unchanged_or_inserted (br : BidRepository) (now : time.Time)
    (lookupFault insertFault : Option String) (b : entity.Bid) :
    (∃ err, br.CreateBid now lookupFault insertFault b = (some err, br)) ∨
    (br.CreateBid now lookupFault insertFault b =
        (none, { br with Collection := br.Collection ++
          [{ Id := b.Id, UserId := b.UserId, AuctionId := b.AuctionId, Amount := b.Amount,
             Timestamp := time.Time.Unix b.Timestamp }] }) ∧
      ∃ a ∈ br.AuctionRepository.Collection, a.Id = b.AuctionId ∧ a.Status = entity.Active ∧
        now ≤ time.Unix a.ExpiresAt 0) := by
  unfold BidRepository.CreateBid
  cases lookupFault with
  | some msg =>
    left
    exact ⟨error.driver msg, by simp [auction.FindAuctionById_fault]⟩
  | none =>
    cases hfind : br.AuctionRepository.Collection.find? (fun d => d.Id == b.AuctionId) with
    | none =>
      left
      exact ⟨error.New "auction not found",
        by simp [AuctionRepository.FindAuctionById, mongo.FindOne, hfind]⟩
    | some a =>
      have hmem : a ∈ br.AuctionRepository.Collection := List.mem_of_find?_eq_some hfind
      have hid : a.Id = b.AuctionId := by
        simpa using List.find?_some hfind
      have hlook : br.AuctionRepository.FindAuctionById none b.AuctionId
          = .ok (some (toAuction a)) := by
        simp [AuctionRepository.FindAuctionById, mongo.FindOne, hfind]
      rw [hlook]
      simp only
      by_cases hs : (toAuction a).Status ≠ entity.Active
      · left
        exact ⟨error.New "auction is not active", by rw [if_pos hs]⟩
      · rw [if_neg hs]
        by_cases hexp : (toAuction a).IsExpired now = true
        · left
          exact ⟨error.New "auction has expired", by rw [if_pos hexp]⟩
        · rw [if_neg hexp]
          cases insertFault with
          | some msg =>
            left
            exact ⟨error.driver msg, by simp [mongo.InsertOne]⟩
          | none =>
            by_cases hdup : (br.Collection.any fun d => d.Id == b.Id) = true
            · left
              exact ⟨error.driver "E11000 duplicate key error", by simp [mongo.InsertOne, hdup]⟩
            · right
              refine ⟨by simp [mongo.InsertOne, hdup], a, hmem, hid, ?_, ?_⟩
              · simpa [toAuction] using hs
              · simpa [entity.Auction.IsExpired, time.Time.After, toAuction] using hexp

/-- C6: for every bid, every clock reading and every outcome of the store calls, `CreateBid`
either returns an error and leaves the bid store as it is, or returns no error after having
appended the bid to the bid store, and then the referenced auction is stored, has status
Active and its expiry is not before the clock reading of the check.  In particular a bid on
an Active auction whose expiry is in the past is rejected with "auction has expired" and
nothing is inserted. -/
theorem C6_bid_stored_only_if_auction_active_and_running (br : BidRepository)
    (now : time.Time) (insertFault : Option String) (b : entity.Bid) :
    (∀ lookupFault : Option String,
      (br.CreateBid now lookupFault insertFault b).2.Collection ≠ br.Collection →
        (br.CreateBid now lookupFault insertFault b).1 = none ∧
        (br.CreateBid now lookupFault insertFault b).2.Collection = br.Collection ++
          [{ Id := b.Id, UserId := b.UserId, AuctionId := b.AuctionId, Amount := b.Amount,
             Timestamp := time.Time.Unix b.Timestamp }] ∧
        ∃ a ∈ br.AuctionRepository.Collection, a.Id = b.AuctionId ∧
          a.Status = entity.Active ∧ (toAuction a).IsExpired now = false) ∧
    (∀ a ∈ br.AuctionRepository.Collection,
      mongo.uniqueKeys entity.AuctionEntityMongo.Id br.AuctionRepository.Collection →
      a.Id = b.AuctionId → a.Status = entity.Active → (toAuction a).IsExpired now = true →
        br.CreateBid now none insertFault b = (some (error.New "auction has expired"), br)) := by
  constructor
  · intro lookupFault hne
    rcases bid.CreateBid_unchanged_or_inserted br now lookupFault insertFault b with
      ⟨err, herr⟩ | ⟨hok, a, hmem, hid, hs, hnow⟩
    · rw [herr] at hne
      exact absurd rfl hne
    · rw [hok]
      refine ⟨rfl, rfl, a, hmem, hid, hs, ?_⟩
      simpa [entity.Auction.IsExpired, time.Time.After, toAuction] using hnow
  · intro a hmem hu hid hs hexp
    have hfind := auction.FindAuctionById_of_mem br.AuctionRepository a hu hmem
    rw [hid] at hfind
    have hs' : (toAuction a).Status = entity.Active := hs
    simp [BidRepository.CreateBid, hfind, hs', hexp]

/-- C6 at a store with one Active auction that expires at second 100: a bid checked one
nanosecond after that is rejected and not stored; a bid checked at that very instant is
stored, and the auction it references is Active and not expired. -/
theorem C6_bid_stored_only_if_auction_active_and_running_witness :
    ((BidRepository.mk []
        ⟨[⟨"a1", "Widget", "Tools", "0123456789", entity.New, entity.Active, 0, 100⟩]⟩).CreateBid
        100000000001 none none ⟨"b1", "u1", "a1", 10, 5⟩
      = (some (error.New "auction has expired"),
         ⟨[], ⟨[⟨"a1", "Widget", "Tools", "0123456789", entity.New, entity.Active, 0, 100⟩]⟩⟩)) ∧
    (∃ a ∈ [(⟨"a1", "Widget", "Tools", "0123456789", entity.New, entity.Active, 0, 100⟩ :
          entity.AuctionEntityMongo)],
        a.Id = "a1" ∧ a.Status = entity.Active ∧ (toAuction a).IsExpired 100000000000 = false) :=
  ⟨(C6_bid_stored_only_if_auction_active_and_running
      ⟨[], ⟨[⟨"a1", "Widget", "Tools", "0123456789", entity.New, entity.Active, 0, 100⟩]⟩⟩
      100000000001 none ⟨"b1", "u1", "a1", 10, 5⟩).2
      ⟨"a1", "Widget", "Tools", "0123456789", entity.New, entity.Active, 0, 100⟩
      (by simp) (by decide) rfl rfl (by decide),
   ((C6_bid_stored_only_if_auction_active_and_running
      ⟨[], ⟨[⟨"a1", "Widget", "Tools", "0123456789", entity.New, entity.Active, 0, 100⟩]⟩⟩
      100000000000 none ⟨"b1", "u1", "a1", 10, 5⟩).1 none
      (List.cons_ne_nil
        (⟨"b1", "u1", "a1", 10, 0⟩ : entity.BidEntityMongo) [])).2.2⟩

/-- C7, the code at two failing inputs.  A bid on a stored, Active, running auction whose
insert fails in the driver ("connection refused"), and a bid whose auction lookup fails in the
driver: in both the use case returns the bad-request class (code 400), not
`NewInternalServerError` (code 500). -/
theorem C7_store_failure_reported_as_bad_request :
    CreateBidUseCase.Execute
        ⟨[], ⟨[⟨"a1", "Widget", "Tools", "0123456789", entity.New, entity.Active, 0, 100⟩]⟩⟩
        "b1" 5 5 none (some "connection refused") ⟨"u1", "a1", 10⟩
      = (.error ⟨"connection refused", "bad_request", 400⟩,
         ⟨[], ⟨[⟨"a1", "Widget", "Tools", "0123456789", entity.New, entity.Active, 0, 100⟩]⟩⟩) ∧
    CreateBidUseCase.Execute
        ⟨[], ⟨[⟨"a1", "Widget", "Tools", "0123456789", entity.New, entity.Active, 0, 100⟩]⟩⟩
        "b1" 5 5 (some "server selection timeout") none ⟨"u1", "a1", 10⟩
      = (.error ⟨"server selection timeout", "bad_request", 400⟩,
         ⟨[], ⟨[⟨"a1", "Widget", "Tools", "0123456789", entity.New, entity.Active, 0, 100⟩]⟩⟩) ∧
    (⟨"connection refused", "bad_request", 400⟩ : internal_error.InternalError)
      ≠ internal_error.NewInternalServerError "connection refused" := by
  refine ⟨rfl, rfl, by decide⟩

end BidPlacement

/-! ## The winning bid -/

section WinningBid

open bid bid_usecase

/-- The head of a sorted filtered collection: a matching document that `le` puts before every
matching document. -/
lemma mongo.head_mergeSort_filter {α : Type} (coll : List α) (filter : α → Bool)
    (le : α → α → Bool)
    (htrans : ∀ a b c, le a b = true → le b c = true → le a c = true)
    (htotal : ∀ a b, (le a b || le b a) = true)
    (hex : ∃ d ∈ coll, filter d = true) :
    ∃ w, ((coll.filter filter).mergeSort le).head? = some w ∧ w ∈ coll ∧ filter w = true ∧
      ∀ d ∈ coll, filter d = true → le w d = true := by
  have hperm := List.mergeSort_perm (coll.filter filter) le
  have hsorted := List.sorted_mergeSort htrans htotal (coll.filter filter)
  cases hS : (coll.filter filter).mergeSort le with
  | nil =>
    exfalso
    obtain ⟨d, hd, hfd⟩ := hex
    have hmem : d ∈ (coll.filter filter).mergeSort le :=
      hperm.mem_iff.mpr (List.mem_filter.mpr ⟨hd, hfd⟩)
    rw [hS] at hmem
    cases hmem
  | cons w rest =>
    rw [hS] at hperm hsorted
    have hw : w ∈ coll.filter filter := hperm.mem_iff.mp (List.mem_cons_self w rest)
    refine ⟨w, rfl, (List.mem_filter.mp hw).1, (List.mem_filter.mp hw).2, ?_⟩
    intro d hd hfd
    have hmem : d ∈ w :: rest := hperm.mem_iff.mpr (List.mem_filter.mpr ⟨hd, hfd⟩)
    rcases List.mem_cons.mp hmem with rfl | hrest
    · simpa using htotal d d
    · exact (List.pairwise_cons.mp hsorted).1 d hrest

/-- C8: for every auction id and every bid store (the store call going through): if at least
one bid references the auction, `FindWinningBidByAuctionId` returns a stored bid of that
auction whose amount is greater than or equal to the amount of every bid of that auction, and
the use case returns it; if no bid references the auction, the repository returns the
not-found sentinel and the use case the not-found error "no bids found for this auction". -/
theorem C8_winning_bid_is_a_maximal_bid (br : BidRepository) (auctionId : String) :
    ((∃ d ∈ br.Collection, d.AuctionId = auctionId) →
      ∃ w ∈ br.Collection, w.AuctionId = auctionId ∧
        (∀ d ∈ br.Collection, d.AuctionId = auctionId → d.Amount ≤ w.Amount) ∧
        br.FindWinningBidByAuctionId none auctionId
          = .ok (some ⟨w.Id, w.UserId, w.AuctionId, w.Amount, 0⟩) ∧
        FindBidUseCase.FindWinningBidByAuctionId br none auctionId
          = .ok ⟨w.Id, w.UserId, w.AuctionId, w.Amount⟩) ∧
    ((∀ d ∈ br.Collection, d.AuctionId ≠ auctionId) →
      br.FindWinningBidByAuctionId none auctionId = .ok none ∧
      FindBidUseCase.FindWinningBidByAuctionId br none auctionId
        = .error (internal_error.NewNotFoundError "no bids found for this auction")) := by
  constructor
  · intro hex
    obtain ⟨w, hhead, hw, hfw, hmax⟩ := mongo.head_mergeSort_filter br.Collection
      (fun d => d.AuctionId == auctionId) (fun a b => decide (b.Amount ≤ a.Amount))
      (by
        intro a b c hab hbc
        simp only [decide_eq_true_eq] at hab hbc ⊢
        exact le_trans hbc hab)
      (by
        intro a b
        simp only [Bool.or_eq_true, decide_eq_true_eq]
        exact le_total _ _)
      (by
        obtain ⟨d, hd, hda⟩ := hex
        exact ⟨d, hd, by simpa using hda⟩)
    have hrepo : br.FindWinningBidByAuctionId none auctionId
        = .ok (some ⟨w.Id, w.UserId, w.AuctionId, w.Amount, 0⟩) := by
      simp [BidRepository.FindWinningBidByAuctionId, mongo.FindOneSorted, hhead]
    refine ⟨w, hw, by simpa using hfw, ?_, hrepo, ?_⟩
    · intro d hd hda
      simpa using hmax d hd (by simpa using hda)
    · simp [FindBidUseCase.FindWinningBidByAuctionId, hrepo]
  · intro hnone
    have hfilter : br.Collection.filter (fun d => d.AuctionId == auctionId) = [] := by
      rw [List.filter_eq_nil_iff]
      intro d hd
      simpa using hnone d hd
    have hrepo : br.FindWinningBidByAuctionId none auctionId = .ok none := by
      simp [BidRepository.FindWinningBidByAuctionId, mongo.FindOneSorted, hfilter]
    exact ⟨hrepo, by simp [FindBidUseCase.FindWinningBidByAuctionId, hrepo]⟩

/-- C8 at the bids 10.0, 25.5 and 7.0 of one auction (and a higher bid of another auction):
a maximal bid is returned, and evaluating the code gives the 25.5 bid; for an auction without
bids the use case returns the not-found error. -/
theorem C8_winning_bid_is_a_maximal_bid_witness :
    (∃ w ∈ [(⟨"b1", "u1", "a1", 10, 0⟩ : entity.BidEntityMongo), ⟨"b2", "u2", "a1", 25.5, 0⟩,
          ⟨"b3", "u3", "a1", 7, 0⟩, ⟨"b4", "u4", "a2", 99, 0⟩],
        w.AuctionId = "a1" ∧
        (∀ d ∈ [(⟨"b1", "u1", "a1", 10, 0⟩ : entity.BidEntityMongo), ⟨"b2", "u2", "a1", 25.5, 0⟩,
          ⟨"b3", "u3", "a1", 7, 0⟩, ⟨"b4", "u4", "a2", 99, 0⟩],
          d.AuctionId = "a1" → d.Amount ≤ w.Amount) ∧
        (BidRepository.mk [⟨"b1", "u1", "a1", 10, 0⟩, ⟨"b2", "u2", "a1", 25.5, 0⟩,
          ⟨"b3", "u3", "a1", 7, 0⟩, ⟨"b4", "u4", "a2", 99, 0⟩] ⟨[]⟩).FindWinningBidByAuctionId
            none "a1" = .ok (some ⟨w.Id, w.UserId, w.AuctionId, w.Amount, 0⟩) ∧
        FindBidUseCase.FindWinningBidByAuctionId
          ⟨[⟨"b1", "u1", "a1", 10, 0⟩, ⟨"b2", "u2", "a1", 25.5, 0⟩,
            ⟨"b3", "u3", "a1", 7, 0⟩, ⟨"b4", "u4", "a2", 99, 0⟩], ⟨[]⟩⟩ none "a1"
          = .ok ⟨w.Id, w.UserId, w.AuctionId, w.Amount⟩) ∧
    FindBidUseCase.FindWinningBidByAuctionId
        ⟨[⟨"b1", "u1", "a1", 10, 0⟩, ⟨"b2", "u2", "a1", 25.5, 0⟩,
          ⟨"b3", "u3", "a1", 7, 0⟩, ⟨"b4", "u4", "a2", 99, 0⟩], ⟨[]⟩⟩ none "a1"
      = .ok ⟨"b2", "u2", "a1", 25.5⟩ ∧
    FindBidUseCase.FindWinningBidByAuctionId
        ⟨[⟨"b1", "u1", "a1", 10, 0⟩, ⟨"b2", "u2", "a1", 25.5, 0⟩,
          ⟨"b3", "u3", "a1", 7, 0⟩, ⟨"b4", "u4", "a2", 99, 0⟩], ⟨[]⟩⟩ none "a3"
      = .error (internal_error.NewNotFoundError "no bids found for this auction") :=
  ⟨(C8_winning_bid_is_a_maximal_bid
      ⟨[⟨"b1", "u1", "a1", 10, 0⟩, ⟨"b2", "u2", "a1", 25.5, 0⟩,
        ⟨"b3", "u3", "a1", 7, 0⟩, ⟨"b4", "u4", "a2", 99, 0⟩], ⟨[]⟩⟩ "a1").1
      ⟨⟨"b1", "u1", "a1", 10, 0⟩, by simp, rfl⟩,
   by
    simp [FindBidUseCase.FindWinningBidByAuctionId, BidRepository.FindWinningBidByAuctionId,
      mongo.FindOneSorted, List.mergeSort, List.merge]
    norm_num,
   ((C8_winning_bid_is_a_maximal_bid
      ⟨[⟨"b1", "u1", "a1", 10, 0⟩, ⟨"b2", "u2", "a1", 25.5, 0⟩,
        ⟨"b3", "u3", "a1", 7, 0⟩, ⟨"b4", "u4", "a2", 99, 0⟩], ⟨[]⟩⟩ "a3").2
      (by decide)).2⟩

end WinningBid

/-! ## Create, then look up -/

section RoundTrip

open auction

/-- An insert goes through only without a driver fault and for a key not yet stored, and it
appends the document. -/
lemma mongo.InsertOne_ok_iff {α : Type} (key : α → String) (fault : Option String)
    (coll coll' : List α) (doc : α) (h : mongo.InsertOne key fault coll doc = .ok coll') :
    fault = none ∧ (∀ d ∈ coll, key d ≠ key doc) ∧ coll' = coll ++ [doc] := by
  unfold mongo.InsertOne at h
  cases fault with
  | some msg => simp at h
  | none =>
    simp only at h
    split at h
    · cases h
    · rename_i hany
      cases h
      refine ⟨rfl, ?_, rfl⟩
      intro d hd hkey
      apply hany
      rw [List.any_eq_true]
      exact ⟨d, hd, by simpa using hkey⟩

/-- A lookup by the key of a document appended to a collection without that key finds it. -/
lemma mongo.find?_append_fresh {α : Type} (key : α → String) (coll : List α) (doc : α)
    (hfresh : ∀ d ∈ coll, key d ≠ key doc) :
    (coll ++ [doc]).find? (fun x => key x == key doc) = some doc := by
  rw [List.find?_append, mongo.find?_eq_none key coll (key doc) hfresh]
  simp

/-- C9 (round trip): for every auction for which `AuctionRepository.CreateAuction` returns no
error, an immediately following `FindAuctionById` with the auction's id returns an auction
with the same id, product name, category, description, condition and status; when the auction
comes from `entity.CreateAuction`, as in the create path, these are the identifier and the
product name, category, description and condition given at creation, and status Active. -/
theorem C9_create_then_find_by_id (ar ar' : AuctionRepository) (a a' : entity.Auction)
    (durationStr : String) (now3 : time.Time) (fault : Option String)
    (h : ar.CreateAuction durationStr now3 fault a = (none, a', ar')) :
    ∃ found, ar'.FindAuctionById none a.Id = .ok (some found) ∧
      found.Id = a.Id ∧ found.ProductName = a.ProductName ∧ found.Category = a.Category ∧
      found.Description = a.Description ∧ found.Condition = a.Condition ∧
      found.Status = a.Status ∧
      (∀ (id : String) (now1 now2 : time.Time) (productName category description : String)
          (condition : entity.ProductCondition) (duration : time.Duration),
        entity.CreateAuction id now1 now2 productName category description condition duration
            = .ok a →
          found.Id = id ∧ found.ProductName = productName ∧ found.Category = category ∧
          found.Description = description ∧ found.Condition = condition ∧
          found.Status = entity.Active) := by
  unfold AuctionRepository.CreateAuction at h
  simp only at h
  split at h
  · cases h
  · rename_i coll hins
    obtain ⟨_, hfresh, hcoll⟩ := mongo.InsertOne_ok_iff _ _ _ _ _ hins
    simp only [Prod.mk.injEq, true_and] at h
    obtain ⟨_, har⟩ := h
    subst har hcoll
    have hfind := mongo.find?_append_fresh entity.AuctionEntityMongo.Id ar.Collection _ hfresh
    refine ⟨toAuction
      { Id := a.Id
        ProductName := a.ProductName
        Category := a.Category
        Description := a.Description
        Condition := a.Condition
        Status := a.Status
        Timestamp := time.Time.Unix a.Timestamp
        ExpiresAt := time.Time.Unix (time.Time.Add now3 (calculateAuctionDuration durationStr)) },
      by
        simp only [AuctionRepository.FindAuctionById, mongo.FindOne]
        rw [hfind], rfl, rfl, rfl, rfl, rfl, rfl, ?_⟩
    intro id now1 now2 productName category description condition duration hcreate
    simp only [entity.CreateAuction, Except.ok.injEq] at hcreate
    subst hcreate
    exact ⟨rfl, rfl, rfl, rfl, rfl, rfl⟩

/-- C9 at the auction of the spec: product name "Widget", category "Tools", a description of
exactly 10 characters, condition New, created by `entity.CreateAuction` and stored in an empty
store; the lookup returns the same fields and status Active. -/
theorem C9_create_then_find_by_id_witness :
    (auction_usecase.AuctionInputDTO.mk "Widget" "Tools" "0123456789" entity.New).valid ∧
    "0123456789".length = 10 ∧
    (AuctionRepository.mk []).CreateAuction "300" 7 none
        ⟨"a1", "Widget", "Tools", "0123456789", entity.New, entity.Active, 5, 6⟩
      = (none,
         ⟨"a1", "Widget", "Tools", "0123456789", entity.New, entity.Active, 5, 300000000007⟩,
         ⟨[⟨"a1", "Widget", "Tools", "0123456789", entity.New, entity.Active, 0, 300⟩]⟩) ∧
    ∃ found, (AuctionRepository.mk
        [⟨"a1", "Widget", "Tools", "0123456789", entity.New, entity.Active, 0, 300⟩]
        ).FindAuctionById none "a1" = .ok (some found) ∧
      found.Id = "a1" ∧ found.ProductName = "Widget" ∧ found.Category = "Tools" ∧
      found.Description = "0123456789" ∧ found.Condition = entity.New ∧
      found.Status = entity.Active :=
  ⟨by decide, by decide, rfl,
   let ⟨found, hfind, _, _, _, _, _, _, hall⟩ :=
    C9_create_then_find_by_id ⟨[]⟩
      ⟨[⟨"a1", "Widget", "Tools", "0123456789", entity.New, entity.Active, 0, 300⟩]⟩
      ⟨"a1", "Widget", "Tools", "0123456789", entity.New, entity.Active, 5, 6⟩
      ⟨"a1", "Widget", "Tools", "0123456789", entity.New, entity.Active, 5, 300000000007⟩
      "300" 7 none rfl
   ⟨found, hfind, hall "a1" 5 6 "Widget" "Tools" "0123456789" entity.New 0 rfl⟩⟩

end RoundTrip

/-! ## Configuration values -/

section Configuration

open auction

lemma strconv.digitChar_isDigit (k : Nat) (hk : k < 10) :
    (Nat.digitChar k).isDigit = true ∧ (Nat.digitChar k).toNat - 48 = k := by
  interval_cases k <;> decide

/-- Reading back the digits printed by `Nat.toDigitsCore` continues from the printed number. -/
lemma strconv.parseDigits_toDigitsCore (fuel : Nat) :
    ∀ (n : Nat) (ds : List Char), n < fuel →
      strconv.parseDigits (Nat.toDigitsCore 10 fuel n ds) 0 = strconv.parseDigits ds n := by
  induction fuel with
  | zero => intro n ds h; omega
  | succ fuel ih =>
    intro n ds h
    have hd := strconv.digitChar_isDigit (n % 10) (Nat.mod_lt _ (by decide))
    simp only [Nat.toDigitsCore]
    split
    · rename_i h0
      have hn : n % 10 = n := by omega
      rw [hn] at hd ⊢
      simp [strconv.parseDigits, hd.1, hd.2]
    · rename_i h0
      rw [ih (n / 10) _ (by omega)]
      simp only [strconv.parseDigits, hd.1, hd.2, if_true]
      congr 1
      omega

lemma strconv.parseDigits_repr (n : Nat) :
    strconv.parseDigits (Nat.repr n).data 0 = some n := by
  simp [Nat.repr, Nat.toDigits, List.asString, strconv.parseDigits_toDigitsCore (n + 1) n [],
    strconv.parseDigits]


lemma strconv.parseSigned_of_digit_head (c : Char) (cs : List Char) (n : Nat)
    (h : strconv.parseDigits (c :: cs) 0 = some n) :
    strconv.parseSigned (c :: cs) = some (n : Int) := by
  have hc : c.isDigit = true := by
    by_contra hc
    simp [strconv.parseDigits, hc] at h
  have h1 : c ≠ '-' := by rintro rfl; exact absurd hc (by decide)
  have h2 : c ≠ '+' := by rintro rfl; exact absurd hc (by decide)
  unfold strconv.parseSigned
  split
  · rename_i heq; cases heq; exact absurd rfl h1
  · rename_i heq; cases heq; exact absurd rfl h2
  · simp [strconv.parseUnsigned, h]

lemma strconv.parseSigned_natRepr (n : Nat) :
    strconv.parseSigned (Nat.repr n).data = some (n : Int) := by
  have h := strconv.parseDigits_repr n
  cases hl : (Nat.repr n).data with
  | nil =>
    rw [hl] at h
    simp only [strconv.parseDigits, Option.some.injEq] at h
    subst h
    exact absurd hl (by decide)
  | cons c cs =>
    rw [hl] at h
    exact strconv.parseSigned_of_digit_head c cs n h

lemma strconv.parseUnsigned_natRepr (n : Nat) :
    strconv.parseUnsigned (Nat.repr n).data = some n := by
  have h := strconv.parseDigits_repr n
  cases hl : (Nat.repr n).data with
  | nil =>
    rw [hl] at h
    simp only [strconv.parseDigits, Option.some.injEq] at h
    subst h
    exact absurd hl (by decide)
  | cons c cs =>
    rw [hl] at h
    simpa [strconv.parseUnsigned] using h

/-- Reading the decimal rendering of an integer gives the integer back. -/
lemma strconv.parseSigned_toString (n : Int) :
    strconv.parseSigned (toString n).data = some n ∧ toString n ≠ "" := by
  cases n with
  | ofNat m =>
    have h := strconv.parseSigned_natRepr m
    have hs : toString (Int.ofNat m) = Nat.repr m := rfl
    rw [hs]
    refine ⟨h, ?_⟩
    intro he
    rw [he] at h
    simp [strconv.parseSigned, strconv.parseUnsigned] at h
  | negSucc m =>
    have h := strconv.parseUnsigned_natRepr (m + 1)
    have hs : toString (Int.negSucc m) = "-" ++ Nat.repr (m + 1) := rfl
    have hd : ("-" ++ Nat.repr (m + 1)).data = '-' :: (Nat.repr (m + 1)).data := by
      rw [String.data_append]; rfl
    rw [hs]
    constructor
    · simp only [hd, strconv.parseSigned, h, Option.map_some']
      simp [Int.negSucc_eq]
    · intro he
      have := congrArg String.data he
      rw [hd] at this
      simp at this

lemma strconv.parseDigits_none (cs : List Char) :
    ∀ acc, (∃ c ∈ cs, c.isDigit = false) → strconv.parseDigits cs acc = none := by
  induction cs with
  | nil => intro acc h; simp at h
  | cons c cs ih =>
    intro acc h
    by_cases hc : c.isDigit = true
    · have h2 : ∃ c ∈ cs, c.isDigit = false := by
        obtain ⟨x, hx, hxd⟩ := h
        rcases List.mem_cons.mp hx with rfl | hx
        · rw [hc] at hxd; cases hxd
        · exact ⟨x, hx, hxd⟩
      simp [strconv.parseDigits, hc, ih _ h2]
    · simp [strconv.parseDigits, hc]

lemma strconv.parseUnsigned_none (cs : List Char) (h : ∃ c ∈ cs, c.isDigit = false) :
    strconv.parseUnsigned cs = none := by
  cases cs with
  | nil => rfl
  | cons c cs => exact strconv.parseDigits_none _ 0 h

/-- A text with a character that is neither a digit nor a sign is not a number for `Atoi`. -/
lemma strconv.Atoi_none_of_bad_char (s : String)
    (h : ∃ c ∈ s.data, c.isDigit = false ∧ c ≠ '+' ∧ c ≠ '-') : strconv.Atoi s = none := by
  obtain ⟨x, hx, hxd, hplus, hminus⟩ := h
  have hp : strconv.parseSigned s.data = none := by
    unfold strconv.parseSigned
    split
    · rename_i rest heq
      rw [heq] at hx
      rcases List.mem_cons.mp hx with rfl | hx
      · exact absurd rfl hminus
      · simp [strconv.parseUnsigned_none rest ⟨x, hx, hxd⟩]
    · rename_i rest heq
      rw [heq] at hx
      rcases List.mem_cons.mp hx with rfl | hx
      · exact absurd rfl hplus
      · simp [strconv.parseUnsigned_none rest ⟨x, hx, hxd⟩]
    · simp [strconv.parseUnsigned_none s.data ⟨x, hx, hxd⟩]
  simp [strconv.Atoi, hp]

lemma time.wrapInt64_of_fits (x : Int) (hlo : -(2 ^ 63 : Int) ≤ x) (hhi : x < 2 ^ 63) :
    time.wrapInt64 x = x := by
  unfold time.wrapInt64
  omega

/-- C10 as stated fails.  The decimal integer `9223372036854775808` does not fit `int`, `Atoi`
reports a range error and the function returns the default 300 seconds, not that many
seconds; for the decimal integer `9223372037` the product with `time.Second` wraps around in
`int64` and the function returns a negative duration. -/
theorem C10_duration_not_n_seconds_for_large_n :
    calculateAuctionDuration "9223372036854775808" = 300 * time.Second ∧
    calculateAuctionDuration "9223372036854775808" ≠ 9223372036854775808 * time.Second ∧
    calculateAuctionDuration "9223372037" = -9223372036709551616 ∧
    calculateAuctionDuration "9223372037" ≠ 9223372037 * time.Second := by
  decide

/-- C10 (amended): `calculateAuctionDuration` returns 5 minutes (300 seconds) when the value
of `AUCTION_DURATION` is absent/empty, when `Atoi` rejects it (in particular when it has a
character that is neither a digit nor a sign) and when it is a decimal integer outside the
range of `int64`; it returns exactly `n` seconds when the value is the decimal integer `n` with
`-9223372036 ≤ n ≤ 9223372036`, the integers whose number of nanoseconds fits a
`time.Duration`. -/
theorem C10_calculateAuctionDuration_default_or_seconds :
    calculateAuctionDuration "" = 5 * time.Minute ∧
    5 * time.Minute = 300 * time.Second ∧
    (∀ s : String, strconv.Atoi s = none → calculateAuctionDuration s = 300 * time.Second) ∧
    (∀ s : String, (∃ c ∈ s.data, c.isDigit = false ∧ c ≠ '+' ∧ c ≠ '-') →
      calculateAuctionDuration s = 300 * time.Second) ∧
    (∀ n : Int, (n < -(2 ^ 63) ∨ 2 ^ 63 ≤ n) →
      calculateAuctionDuration (toString n) = 300 * time.Second) ∧
    (∀ n : Int, -9223372036 ≤ n → n ≤ 9223372036 →
      calculateAuctionDuration (toString n) = n * time.Second) := by
  have hnone : ∀ s : String, strconv.Atoi s = none →
      calculateAuctionDuration s = 300 * time.Second := by
    intro s hs
    unfold calculateAuctionDuration
    split
    · decide
    · rw [hs]; decide
  refine ⟨by decide, by decide, hnone, ?_, ?_, ?_⟩
  · intro s hs
    exact hnone s (strconv.Atoi_none_of_bad_char s hs)
  · intro n hn
    apply hnone
    have hp := (strconv.parseSigned_toString n).1
    simp only [strconv.Atoi, hp]
    apply if_neg
    omega
  · intro n hlo hhi
    have hp := strconv.parseSigned_toString n
    have ha : strconv.Atoi (toString n) = some n := by
      simp only [strconv.Atoi, hp.1]
      apply if_pos
      constructor <;> omega
    unfold calculateAuctionDuration
    rw [if_neg hp.2, ha]
    show time.wrapInt64 (n * 1000000000) = n * 1000000000
    apply time.wrapInt64_of_fits <;> omega

/-- C10, at concrete values: the three values of the repository's test, and a negative one. -/
theorem C10_calculateAuctionDuration_default_or_seconds_witness :
    calculateAuctionDuration "300" = 300 * time.Second ∧
    calculateAuctionDuration "" = 5 * time.Minute ∧
    calculateAuctionDuration "invalid" = 300 * time.Second ∧
    calculateAuctionDuration "-5" = -5 * time.Second :=
  ⟨C10_calculateAuctionDuration_default_or_seconds.2.2.2.2.2 300 (by decide) (by decide),
   C10_calculateAuctionDuration_default_or_seconds.1,
   C10_calculateAuctionDuration_default_or_seconds.2.2.2.1 "invalid"
     ⟨'i', by decide, by decide, by decide, by decide⟩,
   C10_calculateAuctionDuration_default_or_seconds.2.2.2.2.2 (-5) (by decide) (by decide)⟩

end Configuration

/-! ## The filtered scan -/

section FilteredScan

open auction

lemma mongo.regexMatchHere_eq_startsWithFold (pattern : List Char)
    (hp : ∀ c ∈ pattern, mongo.regexMeta c = false) :
    ∀ subject : List Char,
      mongo.regexMatchHere true pattern subject = mongo.startsWithFold pattern subject := by
  induction pattern with
  | nil => intro subject; cases subject <;> rfl
  | cons p ps ih =>
    intro subject
    cases subject with
    | nil => rfl
    | cons c cs =>
      have hdot : p ≠ '.' := by
        intro h
        have := hp p (List.mem_cons_self p ps)
        rw [h] at this
        revert this
        decide
      have ih' := ih (fun c hc => hp c (List.mem_cons_of_mem p hc)) cs
      simp [mongo.regexMatchHere, mongo.startsWithFold, mongo.regexCharMatches, hdot, ih']

/-- On a pattern without metacharacters the engine tests case-insensitive containment. -/
lemma mongo.regexSearch_eq_occursFold (pattern : List Char)
    (hp : ∀ c ∈ pattern, mongo.regexMeta c = false) :
    ∀ subject : List Char,
      mongo.regexSearch true pattern subject = mongo.occursFold pattern subject := by
  intro subject
  induction subject with
  | nil =>
    simp [mongo.regexSearch, mongo.occursFold,
      mongo.regexMatchHere_eq_startsWithFold pattern hp]
  | cons c cs ih =>
    simp [mongo.regexSearch, mongo.occursFold,
      mongo.regexMatchHere_eq_startsWithFold pattern hp, ih]

/-- The scan with a product-name pattern that the store accepts. -/
lemma auction.FindAuctions_with_pattern (ar : AuctionRepository)
    (regex : String → String → Option (String → Bool)) (status : entity.AuctionStatus)
    (category productName : String) (m : String → Bool) (hne : productName ≠ "")
    (hm : regex productName "i" = some m) :
    ar.FindAuctions regex none none status category productName =
      .ok ((ar.Collection.filter (fun d =>
        decide ((status < 0 ∨ d.Status = status) ∧ (category = "" ∨ d.Category = category) ∧
          m d.ProductName = true))).map toAuction) := by
  simp only [AuctionRepository.FindAuctions, if_pos hne, hm, Option.map_some', mongo.Find,
    mongo.Cursor.All]
  congr 2
  apply List.filter_congr
  intro d _
  by_cases hs : status ≥ 0
  · have hlt : ¬ status < 0 := not_lt.mpr hs
    by_cases hc : category = "" <;> by_cases hst : d.Status = status <;>
      by_cases hcat : d.Category = category <;> simp [hs, hc, hlt, hst, hcat]
  · have hlt : status < 0 := not_le.mp hs
    by_cases hc : category = "" <;> by_cases hst : d.Status = status <;>
      by_cases hcat : d.Category = category <;> simp [hs, hc, hlt, hst, hcat]

/-- The scan without a product-name pattern. -/
lemma auction.FindAuctions_without_pattern (ar : AuctionRepository)
    (regex : String → String → Option (String → Bool)) (status : entity.AuctionStatus)
    (category : String) :
    ar.FindAuctions regex none none status category "" =
      .ok ((ar.Collection.filter (fun d =>
        decide ((status < 0 ∨ d.Status = status) ∧ (category = "" ∨ d.Category = category)))
        ).map toAuction) := by
  have he : ¬ (("" : String) ≠ "") := by simp
  simp only [AuctionRepository.FindAuctions, if_neg he, mongo.Find, mongo.Cursor.All]
  congr 2
  apply List.filter_congr
  intro d _
  by_cases hs : status ≥ 0
  · have hlt : ¬ status < 0 := not_lt.mpr hs
    by_cases hc : category = "" <;> by_cases hst : d.Status = status <;>
      by_cases hcat : d.Category = category <;> simp [hs, hc, hlt, hst, hcat]
  · have hlt : status < 0 := not_le.mp hs
    by_cases hc : category = "" <;> by_cases hst : d.Status = status <;>
      by_cases hcat : d.Category = category <;> simp [hs, hc, hlt, hst, hcat]

/-- C11 as stated fails: the product name is matched as a regular expression, not as a
substring.  With one stored auction named "Widget" and `productName = "w.dget"` (in a pattern
`.` stands for any character) the scan returns the auction, although "Widget" does not contain
the text "w.dget", in any letter case. -/
theorem C11_product_name_matched_as_regex_not_substring :
    (AuctionRepository.mk
        [⟨"a1", "Widget", "Tools", "0123456789", entity.New, entity.Active, 0, 300⟩]
      ).FindAuctions mongo.regexDotOnly none none (-1) "" "w.dget"
      = .ok [toAuction
          ⟨"a1", "Widget", "Tools", "0123456789", entity.New, entity.Active, 0, 300⟩] ∧
    mongo.containsFold "Widget" "w.dget" = false := by
  refine ⟨rfl, by decide⟩

/-- C11 (amended): for every store state and every arguments (status, category, productName),
the store calls going through, `FindAuctions` returns exactly the stored auctions, in store
order, that satisfy all given filters at once: the status equals the given status when
`status >= 0` (a negative sentinel, which the controller passes for a `status` parameter other
than `0` and `1`, means no status constraint), the category equals the given category exactly
when it is non-empty, and, when `productName` is non-empty, the product name matches
`productName` read as a case-insensitive regular expression that the store accepts.  For a
`productName` without regular-expression metacharacters this is the test that the product
name contains `productName` as a case-insensitive substring. -/
theorem C11_FindAuctions_returns_exactly_the_matches (ar : AuctionRepository)
    (regex : String → String → Option (String → Bool)) (status : entity.AuctionStatus)
    (category productName : String) :
    (productName = "" →
      ar.FindAuctions regex none none status category productName =
        .ok ((ar.Collection.filter (fun d =>
          decide ((status < 0 ∨ d.Status = status) ∧ (category = "" ∨ d.Category = category)))
          ).map toAuction)) ∧
    (∀ m : String → Bool, productName ≠ "" → regex productName "i" = some m →
      ar.FindAuctions regex none none status category productName =
        .ok ((ar.Collection.filter (fun d =>
          decide ((status < 0 ∨ d.Status = status) ∧ (category = "" ∨ d.Category = category) ∧
            m d.ProductName = true))).map toAuction)) ∧
    (productName ≠ "" → (∀ c ∈ productName.data, mongo.regexMeta c = false) →
      ar.FindAuctions mongo.regexDotOnly none none status category productName =
        .ok ((ar.Collection.filter (fun d =>
          decide ((status < 0 ∨ d.Status = status) ∧ (category = "" ∨ d.Category = category) ∧
            mongo.containsFold d.ProductName productName = true))).map toAuction)) ∧
    (∀ s : String, s ≠ "0" → s ≠ "1" → auction_controller.auctionStatus s < 0) := by
  refine ⟨?_, ?_, ?_, ?_⟩
  · intro h
    rw [h]
    exact auction.FindAuctions_without_pattern ar regex status category
  · intro m hne hm
    exact auction.FindAuctions_with_pattern ar regex status category productName m hne hm
  · intro hne hp
    rw [auction.FindAuctions_with_pattern ar mongo.regexDotOnly status category productName _
      hne rfl]
    congr 2
    apply List.filter_congr
    intro d _
    have h := mongo.regexSearch_eq_occursFold productName.data hp d.ProductName.data
    have hi : ("i" : String).data.contains 'i' = true := by decide
    simp only [hi, mongo.containsFold, h]
  · intro s h0 h1
    simp [auction_controller.auctionStatus, h0, h1]

/-- C11 (amended) at a store of three auctions: status Active, category "Tools" and the
pattern "IDG" select the Widget auction alone. -/
theorem C11_FindAuctions_returns_exactly_the_matches_witness :
    (AuctionRepository.mk
        [⟨"a1", "Widget", "Tools", "0123456789", entity.New, entity.Active, 0, 300⟩,
         ⟨"a2", "Bridge", "Toys", "0123456789", entity.Used, entity.Active, 0, 300⟩,
         ⟨"a3", "Midget", "Tools", "0123456789", entity.New, entity.Completed, 0, 300⟩]
      ).FindAuctions mongo.regexDotOnly none none entity.Active "Tools" "IDG"
      = .ok ((List.filter (fun d =>
          decide ((entity.Active < 0 ∨ d.Status = entity.Active) ∧
            ("Tools" = "" ∨ d.Category = "Tools") ∧
            mongo.containsFold d.ProductName "IDG" = true))
          [⟨"a1", "Widget", "Tools", "0123456789", entity.New, entity.Active, 0, 300⟩,
           ⟨"a2", "Bridge", "Toys", "0123456789", entity.Used, entity.Active, 0, 300⟩,
           ⟨"a3", "Midget", "Tools", "0123456789", entity.New, entity.Completed, 0, 300⟩]
          ).map toAuction) ∧
    (List.filter (fun d =>
          decide ((entity.Active < 0 ∨ d.Status = entity.Active) ∧
            ("Tools" = "" ∨ d.Category = "Tools") ∧
            mongo.containsFold d.ProductName "IDG" = true))
          [(⟨"a1", "Widget", "Tools", "0123456789", entity.New, entity.Active, 0, 300⟩ :
              entity.AuctionEntityMongo),
           ⟨"a2", "Bridge", "Toys", "0123456789", entity.Used, entity.Active, 0, 300⟩,
           ⟨"a3", "Midget", "Tools", "0123456789", entity.New, entity.Completed, 0, 300⟩])
      = [⟨"a1", "Widget", "Tools", "0123456789", entity.New, entity.Active, 0, 300⟩] :=
  ⟨(C11_FindAuctions_returns_exactly_the_matches
      ⟨[⟨"a1", "Widget", "Tools", "0123456789", entity.New, entity.Active, 0, 300⟩,
        ⟨"a2", "Bridge", "Toys", "0123456789", entity.Used, entity.Active, 0, 300⟩,
        ⟨"a3", "Midget", "Tools", "0123456789", entity.New, entity.Completed, 0, 300⟩]⟩
      mongo.regexDotOnly entity.Active "Tools" "IDG").2.2.1 (by decide) (by decide),
   by decide⟩

end FilteredScan

/-! ## The expired query, the status update and the lookup -/

section Queries

open auction auction_usecase

/-- Whole seconds and instants: a stored expiry is at most the seconds of the clock exactly when
the instant it denotes is not after the clock reading. -/
lemma time.le_Unix_iff (sec : Int) (clock : time.Time) :
    sec ≤ time.Time.Unix clock ↔ time.Unix sec 0 ≤ clock := by
  unfold time.Time.Unix time.Unix
  rw [add_zero]
  exact Int.le_ediv_iff_mul_le (by decide)

/-- C12: for every store state and every clock reading, the store calls going through,
`FindExpiredAuctions` returns exactly the auctions whose status is Active and whose expiry
timestamp is `<= now`.  The result is the list, in store order, of the stored documents with
status Active and expiry instant not after the clock reading, each returned with its stored
id, product name, category, description, condition and status, and with its creation and
expiry seconds as instants.  So an auction is in the result exactly when it is such a record
of a stored Active document with `expires_at <= now` in whole epoch seconds: every such
auction is in the result and no other auction is. -/
theorem C12_FindExpiredAuctions_returns_exactly_the_expired (ar : AuctionRepository)
    (clock : time.Time) :
    ar.FindExpiredAuctions clock none none =
      .ok ((ar.Collection.filter (fun d =>
        decide (d.Status = entity.Active ∧ time.Unix d.ExpiresAt 0 ≤ clock))).map
        (fun d => ({ Id := d.Id
                     ProductName := d.ProductName
                     Category := d.Category
                     Description := d.Description
                     Condition := d.Condition
                     Status := d.Status
                     Timestamp := time.Unix d.Timestamp 0
                     ExpiresAt := time.Unix d.ExpiresAt 0 } : entity.Auction))) ∧
    (∀ a : entity.Auction,
      (∃ found, ar.FindExpiredAuctions clock none none = .ok found ∧ a ∈ found) ↔
      ∃ d ∈ ar.Collection, d.Status = entity.Active ∧ d.ExpiresAt ≤ time.Time.Unix clock ∧
        a = { Id := d.Id
              ProductName := d.ProductName
              Category := d.Category
              Description := d.Description
              Condition := d.Condition
              Status := entity.Active
              Timestamp := time.Unix d.Timestamp 0
              ExpiresAt := time.Unix d.ExpiresAt 0 }) := by
  have hres : ar.FindExpiredAuctions clock none none =
      .ok ((ar.Collection.filter (fun d =>
        decide (d.Status = entity.Active ∧ time.Unix d.ExpiresAt 0 ≤ clock))).map
        (fun d => ({ Id := d.Id
                     ProductName := d.ProductName
                     Category := d.Category
                     Description := d.Description
                     Condition := d.Condition
                     Status := d.Status
                     Timestamp := time.Unix d.Timestamp 0
                     ExpiresAt := time.Unix d.ExpiresAt 0 } : entity.Auction))) := by
    simp only [AuctionRepository.FindExpiredAuctions, mongo.Find, mongo.Cursor.All]
    congr 1
    have hf : ar.Collection.filter (expiredFilter (time.Time.Unix clock)) =
        ar.Collection.filter (fun d =>
          decide (d.Status = entity.Active ∧ time.Unix d.ExpiresAt 0 ≤ clock)) := by
      apply List.filter_congr
      intro d _
      have h := time.le_Unix_iff d.ExpiresAt clock
      by_cases hs : d.Status = entity.Active <;>
        by_cases he : d.ExpiresAt ≤ time.Time.Unix clock <;>
        simp [expiredFilter, hs, he, ← h]
    rw [hf]
    rfl
  refine ⟨hres, fun a => ?_⟩
  rw [hres]
  constructor
  · rintro ⟨found, hfound, ha⟩
    simp only [Except.ok.injEq] at hfound
    rw [← hfound] at ha
    simp only [List.mem_map, List.mem_filter, decide_eq_true_eq] at ha
    obtain ⟨d, ⟨hd, hs, he⟩, rfl⟩ := ha
    exact ⟨d, hd, hs, (time.le_Unix_iff d.ExpiresAt clock).mpr he, by rw [hs]⟩
  · rintro ⟨d, hd, hs, he, rfl⟩
    refine ⟨_, rfl, ?_⟩
    simp only [List.mem_map, List.mem_filter, decide_eq_true_eq]
    exact ⟨d, ⟨hd, hs, (time.le_Unix_iff d.ExpiresAt clock).mp he⟩, by rw [hs]⟩

/-- C12 at a store of three auctions read at second 1000: the expired Active auction is
returned with all its fields; the running Active auction and the expired Completed one are
not. -/
theorem C12_FindExpiredAuctions_returns_exactly_the_expired_witness :
    (AuctionRepository.mk
        [⟨"a1", "Old", "Tools", "0123456789", entity.Used, entity.Active, 400, 700⟩,
         ⟨"a2", "Widget", "Tools", "0123456789", entity.New, entity.Active, 900, 1200⟩,
         ⟨"a3", "Kettle", "Home", "0123456789", entity.New, entity.Completed, 100, 400⟩]
      ).FindExpiredAuctions 1000000000000 none none
      = .ok [{ Id := "a1"
               ProductName := "Old"
               Category := "Tools"
               Description := "0123456789"
               Condition := entity.Used
               Status := entity.Active
               Timestamp := 400000000000
               ExpiresAt := 700000000000 }] :=
  (C12_FindExpiredAuctions_returns_exactly_the_expired
    ⟨[⟨"a1", "Old", "Tools", "0123456789", entity.Used, entity.Active, 400, 700⟩,
      ⟨"a2", "Widget", "Tools", "0123456789", entity.New, entity.Active, 900, 1200⟩,
      ⟨"a3", "Kettle", "Home", "0123456789", entity.New, entity.Completed, 100, 400⟩]⟩
    1000000000000).1.trans rfl

/-- A status update that goes through, over unique keys: document by document. -/
lemma auction.UpdateAuctionStatus_collection (ar ar' : AuctionRepository)
    (fault : Option String) (id : String) (status : entity.AuctionStatus)
    (hu : mongo.uniqueKeys entity.AuctionEntityMongo.Id ar.Collection)
    (h : ar.UpdateAuctionStatus fault id status = (none, ar')) :
    ar'.Collection = ar.Collection.map
      (fun d => if d.Id = id then { d with Status := status } else d) := by
  unfold AuctionRepository.UpdateAuctionStatus mongo.UpdateOne at h
  cases fault with
  | some msg => simp at h
  | none =>
    simp only [Prod.mk.injEq, true_and] at h
    rw [← h]
    exact mongo.updateFirst_eq_map entity.AuctionEntityMongo.Id id _ ar.Collection hu

/-- C14: for every existing auction id, every prior status and every status `s`, the call
`UpdateAuctionStatus(id, s)` succeeds when the driver does, whatever the prior status (the
overwrite is unconditional), and after it a `FindAuctionById(id)` reports status `s` with
every other field of that auction as before; the stored document differs from the former one
in its status only, no document is added or removed, and every other auction in the store is
unchanged (the stored document and what a lookup reports).  A call returns no error only in
this way, and a call that the driver fails returns the error and changes nothing. -/
theorem C14_UpdateAuctionStatus_overwrites_status_only (ar : AuctionRepository)
    (d : entity.AuctionEntityMongo) (s : entity.AuctionStatus)
    (hu : mongo.uniqueKeys entity.AuctionEntityMongo.Id ar.Collection)
    (hd : d ∈ ar.Collection) :
    ∃ ar', ar.UpdateAuctionStatus none d.Id s = (none, ar') ∧
      ar'.FindAuctionById none d.Id =
        .ok (some { Id := d.Id
                    ProductName := d.ProductName
                    Category := d.Category
                    Description := d.Description
                    Condition := d.Condition
                    Status := s
                    Timestamp := time.Unix d.Timestamp 0
                    ExpiresAt := time.Unix d.ExpiresAt 0 }) ∧
      ar.FindAuctionById none d.Id =
        .ok (some { Id := d.Id
                    ProductName := d.ProductName
                    Category := d.Category
                    Description := d.Description
                    Condition := d.Condition
                    Status := d.Status
                    Timestamp := time.Unix d.Timestamp 0
                    ExpiresAt := time.Unix d.ExpiresAt 0 }) ∧
      ar'.Collection = ar.Collection.map
        (fun x => if x.Id = d.Id then
          { Id := x.Id
            ProductName := x.ProductName
            Category := x.Category
            Description := x.Description
            Condition := x.Condition
            Status := s
            Timestamp := x.Timestamp
            ExpiresAt := x.ExpiresAt } else x) ∧
      ({ Id := d.Id
         ProductName := d.ProductName
         Category := d.Category
         Description := d.Description
         Condition := d.Condition
         Status := s
         Timestamp := d.Timestamp
         ExpiresAt := d.ExpiresAt } : entity.AuctionEntityMongo) ∈ ar'.Collection ∧
      ar'.Collection.length = ar.Collection.length ∧
      (∀ e ∈ ar.Collection, e.Id ≠ d.Id →
        e ∈ ar'.Collection ∧
        ar'.FindAuctionById none e.Id = ar.FindAuctionById none e.Id ∧
        ar.FindAuctionById none e.Id =
          .ok (some { Id := e.Id
                      ProductName := e.ProductName
                      Category := e.Category
                      Description := e.Description
                      Condition := e.Condition
                      Status := e.Status
                      Timestamp := time.Unix e.Timestamp 0
                      ExpiresAt := time.Unix e.ExpiresAt 0 })) ∧
      (∀ (fault : Option String) (ar'' : AuctionRepository),
        ar.UpdateAuctionStatus fault d.Id s = (none, ar'') → fault = none ∧ ar'' = ar') ∧
      (∀ msg : String,
        ar.UpdateAuctionStatus (some msg) d.Id s = (some (error.driver msg), ar)) := by
  have hcall : ar.UpdateAuctionStatus none d.Id s
      = (none, (ar.UpdateAuctionStatus none d.Id s).2) := rfl
  have hcoll := auction.UpdateAuctionStatus_collection ar _ none d.Id s hu hcall
  have hu' : mongo.uniqueKeys entity.AuctionEntityMongo.Id
      (ar.UpdateAuctionStatus none d.Id s).2.Collection := by
    rw [hcoll]
    apply mongo.uniqueKeys_map _ _ _ _ hu
    intro x
    split <;> rfl
  have hmem : ({ d with Status := s } : entity.AuctionEntityMongo) ∈
      (ar.UpdateAuctionStatus none d.Id s).2.Collection := by
    rw [hcoll]
    have hm := List.mem_map_of_mem
      (fun x : entity.AuctionEntityMongo => if x.Id = d.Id then { x with Status := s } else x) hd
    simpa using hm
  refine ⟨(ar.UpdateAuctionStatus none d.Id s).2, hcall,
    auction.FindAuctionById_of_mem _ { d with Status := s } hu' hmem,
    auction.FindAuctionById_of_mem ar d hu hd, hcoll, hmem,
    by rw [hcoll, List.length_map], ?_, ?_, ?_⟩
  · intro e he hne
    have hmem' : e ∈ (ar.UpdateAuctionStatus none d.Id s).2.Collection := by
      rw [hcoll]
      have hm := List.mem_map_of_mem
        (fun x : entity.AuctionEntityMongo => if x.Id = d.Id then { x with Status := s } else x)
        he
      simpa [hne] using hm
    exact ⟨hmem', by
      rw [auction.FindAuctionById_of_mem _ e hu' hmem',
        auction.FindAuctionById_of_mem ar e hu he],
      auction.FindAuctionById_of_mem ar e hu he⟩
  · intro fault ar'' h
    cases fault with
    | some msg =>
      simp [AuctionRepository.UpdateAuctionStatus, mongo.UpdateOne] at h
    | none =>
      rw [hcall] at h
      exact ⟨rfl, (Prod.mk.inj h).2.symm⟩
  · intro msg
    rfl

/-- C14 at a store of two auctions: the update of the Active auction "a1" to Completed
succeeds and gives the store with "a1" Completed and "a2" as before; the update of a Completed
"a1" back to Active succeeds as well; after the first update the lookup of "a1" reports
Completed with the other fields as before. -/
theorem C14_UpdateAuctionStatus_overwrites_status_only_witness :
    ((AuctionRepository.mk
        [⟨"a1", "Widget", "Tools", "0123456789", entity.New, entity.Active, 5, 300⟩,
         ⟨"a2", "Bridge", "Toys", "0123456789", entity.Used, entity.Active, 0, 300⟩]
      ).UpdateAuctionStatus none "a1" entity.Completed
      = (none,
         ⟨[⟨"a1", "Widget", "Tools", "0123456789", entity.New, entity.Completed, 5, 300⟩,
           ⟨"a2", "Bridge", "Toys", "0123456789", entity.Used, entity.Active, 0, 300⟩]⟩)) ∧
    ((AuctionRepository.mk
        [⟨"a1", "Widget", "Tools", "0123456789", entity.New, entity.Completed, 5, 300⟩,
         ⟨"a2", "Bridge", "Toys", "0123456789", entity.Used, entity.Active, 0, 300⟩]
      ).UpdateAuctionStatus none "a1" entity.Active
      = (none,
         ⟨[⟨"a1", "Widget", "Tools", "0123456789", entity.New, entity.Active, 5, 300⟩,
           ⟨"a2", "Bridge", "Toys", "0123456789", entity.Used, entity.Active, 0, 300⟩]⟩)) ∧
    (∃ ar', (AuctionRepository.mk
        [⟨"a1", "Widget", "Tools", "0123456789", entity.New, entity.Active, 5, 300⟩,
         ⟨"a2", "Bridge", "Toys", "0123456789", entity.Used, entity.Active, 0, 300⟩]
      ).UpdateAuctionStatus none "a1" entity.Completed = (none, ar') ∧
      ar'.FindAuctionById none "a1"
        = .ok (some ⟨"a1", "Widget", "Tools", "0123456789", entity.New, entity.Completed,
            5000000000, 300000000000⟩) ∧
      (AuctionRepository.mk
        [⟨"a1", "Widget", "Tools", "0123456789", entity.New, entity.Active, 5, 300⟩,
         ⟨"a2", "Bridge", "Toys", "0123456789", entity.Used, entity.Active, 0, 300⟩]
        ).FindAuctionById none "a1"
        = .ok (some ⟨"a1", "Widget", "Tools", "0123456789", entity.New, entity.Active,
            5000000000, 300000000000⟩) ∧
      (⟨"a2", "Bridge", "Toys", "0123456789", entity.Used, entity.Active, 0, 300⟩ :
        entity.AuctionEntityMongo) ∈ ar'.Collection) :=
  ⟨rfl, rfl,
   let ⟨ar', hcall, hfound, hbefore, _, _, _, hothers, _⟩ :=
    C14_UpdateAuctionStatus_overwrites_status_only
      ⟨[⟨"a1", "Widget", "Tools", "0123456789", entity.New, entity.Active, 5, 300⟩,
        ⟨"a2", "Bridge", "Toys", "0123456789", entity.Used, entity.Active, 0, 300⟩]⟩
      ⟨"a1", "Widget", "Tools", "0123456789", entity.New, entity.Active, 5, 300⟩
      entity.Completed (by decide) (by simp)
   ⟨ar', hcall, hfound, hbefore,
    (hothers ⟨"a2", "Bridge", "Toys", "0123456789", entity.Used, entity.Active, 0, 300⟩
      (by simp) (by decide)).1⟩⟩

end Queries

/-! ## Absence and failure of a lookup -/

section Lookup

open auction auction_usecase

/-- C15: for every id, the lookup distinguishes absence from failure.  When no stored auction
has the id, `AuctionRepository.FindAuctionById` returns the not-found sentinel (no auction and
no error) and the use case reports the not-found error (code 404); when the store call fails,
the repository returns the error and the use case reports an internal error (code 500) with
its message; when an auction with the id is stored, the repository returns that stored
auction, and the use case returns it with no error: the record with the stored id, product
name, category, description, condition and status, and the stored creation and expiry seconds
as instants. -/
theorem C15_lookup_absent_failed_found (ar : AuctionRepository) (id : String) :
    ((∀ d ∈ ar.Collection, d.Id ≠ id) →
      ar.FindAuctionById none id = .ok none ∧
      FindAuctionUseCase.FindAuctionById ar none id
        = .error { Message := "auction not found", Err := "not_found", Code := 404 }) ∧
    (∀ msg : String,
      ar.FindAuctionById (some msg) id = .error (error.driver msg) ∧
      FindAuctionUseCase.FindAuctionById ar (some msg) id
        = .error { Message := msg, Err := "internal_server_error", Code := 500 }) ∧
    ((∃ d ∈ ar.Collection, d.Id = id) →
      ∃ d ∈ ar.Collection, d.Id = id ∧
        ar.FindAuctionById none id =
          .ok (some { Id := id
                      ProductName := d.ProductName
                      Category := d.Category
                      Description := d.Description
                      Condition := d.Condition
                      Status := d.Status
                      Timestamp := time.Unix d.Timestamp 0
                      ExpiresAt := time.Unix d.ExpiresAt 0 }) ∧
        FindAuctionUseCase.FindAuctionById ar none id =
          .ok { Id := id
                ProductName := d.ProductName
                Category := d.Category
                Description := d.Description
                Condition := d.Condition
                Status := d.Status
                Timestamp := time.Unix d.Timestamp 0
                ExpiresAt := time.Unix d.ExpiresAt 0 }) ∧
    (∀ d ∈ ar.Collection, mongo.uniqueKeys entity.AuctionEntityMongo.Id ar.Collection →
      FindAuctionUseCase.FindAuctionById ar none d.Id =
        .ok { Id := d.Id
              ProductName := d.ProductName
              Category := d.Category
              Description := d.Description
              Condition := d.Condition
              Status := d.Status
              Timestamp := time.Unix d.Timestamp 0
              ExpiresAt := time.Unix d.ExpiresAt 0 }) := by
  refine ⟨?_, ?_, ?_, ?_⟩
  · intro habs
    have h := auction.FindAuctionById_absent ar id habs
    refine ⟨h, ?_⟩
    simp only [FindAuctionUseCase.FindAuctionById, h]
    rfl
  · intro msg
    have h := auction.FindAuctionById_fault ar msg id
    refine ⟨h, ?_⟩
    simp only [FindAuctionUseCase.FindAuctionById, h]
    rfl
  · rintro ⟨d0, hd0, hid0⟩
    cases hfind : ar.Collection.find? (fun d => d.Id == id) with
    | none =>
      exfalso
      rw [List.find?_eq_none] at hfind
      exact hfind d0 hd0 (by simpa using hid0)
    | some d =>
      have hmem : d ∈ ar.Collection := List.mem_of_find?_eq_some hfind
      have hid : d.Id = id := by simpa using List.find?_some hfind
      have h : ar.FindAuctionById none id = .ok (some (toAuction d)) := by
        simp [AuctionRepository.FindAuctionById, mongo.FindOne, hfind]
      refine ⟨d, hmem, hid, ?_, ?_⟩
      · rw [h, ← hid]
        rfl
      · simp only [FindAuctionUseCase.FindAuctionById, h]
        rw [← hid]
        rfl
  · intro d hd hu
    have h := auction.FindAuctionById_of_mem ar d hu hd
    simp only [FindAuctionUseCase.FindAuctionById, h]
    rfl

/-- C15 at a store with the auction "a1": an absent id gives the not-found error, a failing
store the internal error, and the present id the record of the stored auction, field by
field. -/
theorem C15_lookup_absent_failed_found_witness :
    (FindAuctionUseCase.FindAuctionById
        ⟨[⟨"a1", "Widget", "Tools", "0123456789", entity.Used, entity.Completed, 5, 300⟩]⟩
        none "a2"
      = .error { Message := "auction not found", Err := "not_found", Code := 404 }) ∧
    (FindAuctionUseCase.FindAuctionById
        ⟨[⟨"a1", "Widget", "Tools", "0123456789", entity.Used, entity.Completed, 5, 300⟩]⟩
        (some "connection refused") "a1"
      = .error { Message := "connection refused", Err := "internal_server_error",
                 Code := 500 }) ∧
    (FindAuctionUseCase.FindAuctionById
        ⟨[⟨"a1", "Widget", "Tools", "0123456789", entity.Used, entity.Completed, 5, 300⟩]⟩
        none "a1"
      = .ok { Id := "a1"
              ProductName := "Widget"
              Category := "Tools"
              Description := "0123456789"
              Condition := entity.Used
              Status := entity.Completed
              Timestamp := 5000000000
              ExpiresAt := 300000000000 }) :=
  ⟨((C15_lookup_absent_failed_found
      ⟨[⟨"a1", "Widget", "Tools", "0123456789", entity.Used, entity.Completed, 5, 300⟩]⟩
      "a2").1 (by decide)).2,
   ((C15_lookup_absent_failed_found
      ⟨[⟨"a1", "Widget", "Tools", "0123456789", entity.Used, entity.Completed, 5, 300⟩]⟩
      "a1").2.1 "connection refused").2,
   (C15_lookup_absent_failed_found
      ⟨[⟨"a1", "Widget", "Tools", "0123456789", entity.Used, entity.Completed, 5, 300⟩]⟩
      "a1").2.2.2
      ⟨"a1", "Widget", "Tools", "0123456789", entity.Used, entity.Completed, 5, 300⟩
      (by simp) (by decide)⟩

end Lookup

/-! ## The sweep with failing updates -/

section SweepFailures

open auction

/-- C16: for every store (with unique identifiers), every clock reading and every set of
auctions whose status update fails (`updateFault id` is an error for them), a sweep tick whose
query goes through returns no error; every expired Active auction whose update succeeds is
stored as Completed after the tick, whatever happens to the others (a failed update does not
abort the batch); an auction whose update fails stays as it is. -/
theorem C16_sweep_continues_past_failed_updates (ar : AuctionRepository) (clock : time.Time)
    (updateFault : String → Option String) (a : entity.AuctionEntityMongo)
    (hu : mongo.uniqueKeys entity.AuctionEntityMongo.Id ar.Collection)
    (ha : a ∈ ar.Collection) (hs : a.Status = entity.Active)
    (he : a.ExpiresAt ≤ time.Time.Unix clock) :
    ∃ ar', ar.closeExpiredAuctions clock none none updateFault = (none, ar') ∧
      (updateFault a.Id = none →
        { a with Status := entity.Completed } ∈ ar'.Collection ∧
        ar'.FindAuctionById none a.Id
          = .ok (some (toAuction { a with Status := entity.Completed }))) ∧
      (∀ msg, updateFault a.Id = some msg →
        a ∈ ar'.Collection ∧ ar'.FindAuctionById none a.Id = .ok (some (toAuction a))) := by
  have hcoll : (ar.closeExpiredAuctions clock none none updateFault).2.Collection =
      ar.Collection.map (sweptDocument updateFault
        (ar.Collection.filter (expiredFilter (time.Time.Unix clock)))) :=
    auction.foldl_closeOne_eq_map _ _ ar.Collection hu
  have hu' : mongo.uniqueKeys entity.AuctionEntityMongo.Id
      (ar.closeExpiredAuctions clock none none updateFault).2.Collection := by
    rw [hcoll]
    exact mongo.uniqueKeys_map _ _ (auction.sweptDocument_Id _ _) _ hu
  have hmap := List.mem_map_of_mem (sweptDocument updateFault
    (ar.Collection.filter (expiredFilter (time.Time.Unix clock)))) ha
  rw [← hcoll] at hmap
  refine ⟨(ar.closeExpiredAuctions clock none none updateFault).2, rfl, ?_, ?_⟩
  · intro hok
    have hswept : sweptDocument updateFault
        (ar.Collection.filter (expiredFilter (time.Time.Unix clock))) a
          = { a with Status := entity.Completed } := by
      have hany : ((ar.Collection.filter (expiredFilter (time.Time.Unix clock))).any
          (fun e => e.Id == a.Id && (updateFault e.Id).isNone)) = true := by
        rw [List.any_eq_true]
        refine ⟨a, List.mem_filter.mpr ⟨ha, ?_⟩, by simp [hok]⟩
        simp [expiredFilter, hs, he]
      simp only [sweptDocument, hany, if_true]
    rw [hswept] at hmap
    exact ⟨hmap, auction.FindAuctionById_of_mem _ _ hu' hmap⟩
  · intro msg hfail
    have hswept : sweptDocument updateFault
        (ar.Collection.filter (expiredFilter (time.Time.Unix clock))) a = a := by
      have hany : ((ar.Collection.filter (expiredFilter (time.Time.Unix clock))).any
          (fun e => e.Id == a.Id && (updateFault e.Id).isNone)) = false := by
        rw [List.any_eq_false]
        intro e _ hcontra
        simp only [Bool.and_eq_true, beq_iff_eq] at hcontra
        rw [hcontra.1, hfail] at hcontra
        simp at hcontra
      simp only [sweptDocument, hany]
      rfl
    rw [hswept] at hmap
    exact ⟨hmap, auction.FindAuctionById_of_mem _ _ hu' hmap⟩

/-- C16 at a batch of two expired Active auctions, the update of the first one failing: the
tick returns no error, the second auction is Completed and the first is still Active. -/
theorem C16_sweep_continues_past_failed_updates_witness :
    (AuctionRepository.mk
        [⟨"a1", "Old", "Tools", "0123456789", entity.New, entity.Active, 400, 700⟩,
         ⟨"a2", "Widget", "Tools", "0123456789", entity.New, entity.Active, 400, 800⟩]
      ).closeExpiredAuctions 1000000000000 none none
        (fun id => if id = "a1" then some "write failed" else none)
      = (none,
         ⟨[⟨"a1", "Old", "Tools", "0123456789", entity.New, entity.Active, 400, 700⟩,
           ⟨"a2", "Widget", "Tools", "0123456789", entity.New, entity.Completed, 400, 800⟩]⟩) ∧
    (∃ ar', (AuctionRepository.mk
        [⟨"a1", "Old", "Tools", "0123456789", entity.New, entity.Active, 400, 700⟩,
         ⟨"a2", "Widget", "Tools", "0123456789", entity.New, entity.Active, 400, 800⟩]
      ).closeExpiredAuctions 1000000000000 none none
        (fun id => if id = "a1" then some "write failed" else none) = (none, ar') ∧
      ((if ("a2" : String) = "a1" then some "write failed" else none) = none →
        ({ (⟨"a2", "Widget", "Tools", "0123456789", entity.New, entity.Active, 400, 800⟩ :
            entity.AuctionEntityMongo) with Status := entity.Completed }) ∈ ar'.Collection ∧
        ar'.FindAuctionById none "a2"
          = .ok (some (toAuction { (⟨"a2", "Widget", "Tools", "0123456789", entity.New,
              entity.Active, 400, 800⟩ : entity.AuctionEntityMongo)
              with Status := entity.Completed }))) ∧
      (∀ msg, (if ("a2" : String) = "a1" then some "write failed" else none) = some msg →
        (⟨"a2", "Widget", "Tools", "0123456789", entity.New, entity.Active, 400, 800⟩ :
            entity.AuctionEntityMongo) ∈ ar'.Collection ∧
        ar'.FindAuctionById none "a2" = .ok (some (toAuction
          ⟨"a2", "Widget", "Tools", "0123456789", entity.New, entity.Active, 400, 800⟩)))) :=
  ⟨rfl,
   C16_sweep_continues_past_failed_updates
    ⟨[⟨"a1", "Old", "Tools", "0123456789", entity.New, entity.Active, 400, 700⟩,
      ⟨"a2", "Widget", "Tools", "0123456789", entity.New, entity.Active, 400, 800⟩]⟩
    1000000000000 (fun id => if id = "a1" then some "write failed" else none)
    ⟨"a2", "Widget", "Tools", "0123456789", entity.New, entity.Active, 400, 800⟩
    (by decide) (by simp) rfl (by decide)⟩

end SweepFailures

/-! ## Status transitions over sequences of operations -/

section Transitions

open auction

/-- One operation that can only complete auctions keeps the keys unique and leaves every
stored auction as it is or sets it to Completed. -/
lemma auction.step_completesOnly (ar : AuctionRepository) (op : StoreOp)
    (hu : mongo.uniqueKeys entity.AuctionEntityMongo.Id ar.Collection)
    (hop : op.completesOnly = true) :
    mongo.uniqueKeys entity.AuctionEntityMongo.Id (ar.step op).Collection ∧
    ∀ d ∈ ar.Collection, d ∈ (ar.step op).Collection ∨
      { d with Status := entity.Completed } ∈ (ar.step op).Collection := by
  cases op with
  | CreateAuction durationStr now fault a =>
    simp only [AuctionRepository.step, AuctionRepository.CreateAuction]
    split
    · exact ⟨hu, fun d hd => Or.inl hd⟩
    · rename_i coll hins
      refine ⟨mongo.InsertOne_uniqueKeys _ _ _ _ _ hu hins, fun d hd => Or.inl ?_⟩
      rw [(mongo.InsertOne_ok_iff _ _ _ _ _ hins).2.2]
      exact List.mem_append_left _ hd
  | UpdateAuctionStatus fault id status =>
    have hst : status = entity.Completed := by
      simpa [StoreOp.completesOnly] using hop
    subst hst
    cases fault with
    | some msg =>
      exact ⟨hu, fun d hd => Or.inl hd⟩
    | none =>
      have hcoll : (ar.step (StoreOp.UpdateAuctionStatus none id entity.Completed)).Collection
          = ar.Collection.map (fun d =>
              if d.Id = id then { d with Status := entity.Completed } else d) :=
        mongo.updateFirst_eq_map entity.AuctionEntityMongo.Id id _ ar.Collection hu
      rw [hcoll]
      refine ⟨mongo.uniqueKeys_map _ _ (fun x => by split <;> rfl) _ hu, fun d hd => ?_⟩
      have hm := List.mem_map_of_mem (fun d : entity.AuctionEntityMongo =>
        if d.Id = id then { d with Status := entity.Completed } else d) hd
      by_cases hid : d.Id = id
      · right; simpa [hid] using hm
      · left; simpa [hid] using hm
  | closeExpiredAuctions clock findFault allFault updateFault =>
    show mongo.uniqueKeys entity.AuctionEntityMongo.Id
        (ar.closeExpiredAuctions clock findFault allFault updateFault).2.Collection ∧
      ∀ d ∈ ar.Collection,
        d ∈ (ar.closeExpiredAuctions clock findFault allFault updateFault).2.Collection ∨
        { d with Status := entity.Completed } ∈
          (ar.closeExpiredAuctions clock findFault allFault updateFault).2.Collection
    rcases auction.closeExpiredAuctions_collection ar clock findFault allFault updateFault hu
      with hcoll | hcoll
    · rw [hcoll]
      exact ⟨hu, fun d hd => Or.inl hd⟩
    · rw [hcoll]
      refine ⟨mongo.uniqueKeys_map _ _ (auction.sweptDocument_Id _ _) _ hu, fun d hd => ?_⟩
      have hm := List.mem_map_of_mem (sweptDocument updateFault
        (ar.Collection.filter (expiredFilter (time.Time.Unix clock)))) hd
      unfold sweptDocument at hm
      split at hm
      · exact Or.inr hm
      · exact Or.inl hm

/-- A sequence of operations that can only complete auctions. -/
lemma auction.run_completesOnly (ops : List StoreOp) :
    ∀ ar : AuctionRepository,
      mongo.uniqueKeys entity.AuctionEntityMongo.Id ar.Collection →
      (∀ op ∈ ops, op.completesOnly = true) →
      mongo.uniqueKeys entity.AuctionEntityMongo.Id (ar.run ops).Collection ∧
      ∀ d ∈ ar.Collection, d ∈ (ar.run ops).Collection ∨
        { d with Status := entity.Completed } ∈ (ar.run ops).Collection := by
  induction ops with
  | nil => intro ar hu _; exact ⟨hu, fun d hd => Or.inl hd⟩
  | cons op ops ih =>
    intro ar hu hops
    have hstep := auction.step_completesOnly ar op hu (hops op (List.mem_cons_self op ops))
    have hrest := ih (ar.step op) hstep.1 (fun o ho => hops o (List.mem_cons_of_mem op ho))
    refine ⟨hrest.1, fun d hd => ?_⟩
    rcases hstep.2 d hd with h1 | h1
    · exact hrest.2 d h1
    · rcases hrest.2 _ h1 with h2 | h2
      · exact Or.inr h2
      · exact Or.inr h2

/-- C13 as stated fails: the explicit status update is an unconditional overwrite.  On a store
whose auction "a1" is Completed, `UpdateAuctionStatus("a1", Active)` makes it Active again. -/
theorem C13_update_sets_completed_back_to_active :
    ((AuctionRepository.mk
        [⟨"a1", "Widget", "Tools", "0123456789", entity.New, entity.Completed, 0, 300⟩]).run
        [StoreOp.UpdateAuctionStatus none "a1" entity.Active]).Collection
      = [⟨"a1", "Widget", "Tools", "0123456789", entity.New, entity.Active, 0, 300⟩] ∧
    ((AuctionRepository.mk
        [⟨"a1", "Widget", "Tools", "0123456789", entity.New, entity.Completed, 0, 300⟩]).run
        [StoreOp.UpdateAuctionStatus none "a1" entity.Active]).FindAuctionById none "a1"
      = .ok (some (toAuction
          ⟨"a1", "Widget", "Tools", "0123456789", entity.New, entity.Active, 0, 300⟩)) := by
  refine ⟨rfl, rfl⟩

/-- C13 (amended): over every sequence of `CreateAuction`, sweep ticks and status updates to
Completed, on a store with unique identifiers and whatever the outcomes of the store calls,
every stored auction stays as it is or becomes Completed, and an auction that is Completed
stays Completed: it is still stored, unchanged, and a lookup reports it.  (An explicit
`UpdateAuctionStatus` with another status overwrites the status unconditionally.) -/
theorem C13_status_moves_only_to_completed (ar : AuctionRepository) (ops : List StoreOp)
    (d : entity.AuctionEntityMongo)
    (hu : mongo.uniqueKeys entity.AuctionEntityMongo.Id ar.Collection)
    (hops : ∀ op ∈ ops, op.completesOnly = true) (hd : d ∈ ar.Collection) :
    (d ∈ (ar.run ops).Collection ∨
      { d with Status := entity.Completed } ∈ (ar.run ops).Collection) ∧
    (d.Status = entity.Completed →
      d ∈ (ar.run ops).Collection ∧
      (ar.run ops).FindAuctionById none d.Id = .ok (some (toAuction d)) ∧
      (toAuction d).Status = entity.Completed) := by
  have h := auction.run_completesOnly ops ar hu hops
  refine ⟨h.2 d hd, fun hs => ?_⟩
  have hsame : ({ d with Status := entity.Completed } : entity.AuctionEntityMongo) = d := by
    cases d
    simp only [entity.AuctionEntityMongo.mk.injEq, true_and, and_true] at hs ⊢
    exact hs.symm
  have hmem : d ∈ (ar.run ops).Collection := by
    rcases h.2 d hd with h1 | h1
    · exact h1
    · rw [hsame] at h1; exact h1
  exact ⟨hmem, auction.FindAuctionById_of_mem _ d h.1 hmem, hs⟩

/-- C13 (amended) at a store with a Completed and an Active auction, over a creation, a sweep
tick and an update to Completed. -/
theorem C13_status_moves_only_to_completed_witness :
    (⟨"a1", "Widget", "Tools", "0123456789", entity.New, entity.Completed, 0, 300⟩ :
        entity.AuctionEntityMongo) ∈
      ((AuctionRepository.mk
        [⟨"a1", "Widget", "Tools", "0123456789", entity.New, entity.Completed, 0, 300⟩,
         ⟨"a2", "Bridge", "Toys", "0123456789", entity.Used, entity.Active, 0, 300⟩]).run
        [StoreOp.CreateAuction "300" 7 none
           ⟨"a3", "Kettle", "Home", "0123456789", entity.New, entity.Active, 5, 6⟩,
         StoreOp.closeExpiredAuctions 1000000000000 none none (fun _ => none),
         StoreOp.UpdateAuctionStatus none "a3" entity.Completed]).Collection ∧
    ((AuctionRepository.mk
        [⟨"a1", "Widget", "Tools", "0123456789", entity.New, entity.Completed, 0, 300⟩,
         ⟨"a2", "Bridge", "Toys", "0123456789", entity.Used, entity.Active, 0, 300⟩]).run
        [StoreOp.CreateAuction "300" 7 none
           ⟨"a3", "Kettle", "Home", "0123456789", entity.New, entity.Active, 5, 6⟩,
         StoreOp.closeExpiredAuctions 1000000000000 none none (fun _ => none),
         StoreOp.UpdateAuctionStatus none "a3" entity.Completed]).FindAuctionById none "a1"
      = .ok (some (toAuction
          ⟨"a1", "Widget", "Tools", "0123456789", entity.New, entity.Completed, 0, 300⟩)) ∧
    (toAuction ⟨"a1", "Widget", "Tools", "0123456789", entity.New, entity.Completed, 0, 300⟩
      ).Status = entity.Completed :=
  (C13_status_moves_only_to_completed
    ⟨[⟨"a1", "Widget", "Tools", "0123456789", entity.New, entity.Completed, 0, 300⟩,
      ⟨"a2", "Bridge", "Toys", "0123456789", entity.Used, entity.Active, 0, 300⟩]⟩
    [StoreOp.CreateAuction "300" 7 none
       ⟨"a3", "Kettle", "Home", "0123456789", entity.New, entity.Active, 5, 6⟩,
     StoreOp.closeExpiredAuctions 1000000000000 none none (fun _ => none),
     StoreOp.UpdateAuctionStatus none "a3" entity.Completed]
    ⟨"a1", "Widget", "Tools", "0123456789", entity.New, entity.Completed, 0, 300⟩
    (by decide) (by simp [StoreOp.completesOnly]) (by simp)).2 rfl

end Transitions

/-! ## Creations one after another -/

section SerialCreation

open auction

/-- A creation under a fresh identifier appends one document, with the identifier and the
status of the auction. -/
lemma auction.step_CreateAuction_fresh (ar : AuctionRepository) (durationStr : String)
    (now : time.Time) (a : entity.Auction) (hfresh : ∀ d ∈ ar.Collection, d.Id ≠ a.Id) :
    ∃ doc : entity.AuctionEntityMongo, doc.Id = a.Id ∧ doc.Status = a.Status ∧
      (ar.step (StoreOp.CreateAuction durationStr now none a)).Collection
        = ar.Collection ++ [doc] := by
  have hany : (ar.Collection.any fun d => d.Id == a.Id) = false := by
    rw [List.any_eq_false]
    intro d hd
    simpa using hfresh d hd
  refine ⟨{ Id := a.Id
            ProductName := a.ProductName
            Category := a.Category
            Description := a.Description
            Condition := a.Condition
            Status := a.Status
            Timestamp := time.Time.Unix a.Timestamp
            ExpiresAt := time.Time.Unix
              (time.Time.Add now (calculateAuctionDuration durationStr)) }, rfl, rfl, ?_⟩
  simp only [AuctionRepository.step, AuctionRepository.CreateAuction, mongo.InsertOne, hany]
  rfl

/-- Creations with fresh, pairwise distinct identifiers, run one after another in the given
order: nothing is lost.  Every created auction is stored, the identifiers stay unique, and a
scan for status Active returns at least as many records as Active auctions were created, with
pairwise distinct identifiers. -/
lemma auction.run_creations (durationStr : String)
    (creations : List (time.Time × entity.Auction)) :
    ∀ ar : AuctionRepository,
      mongo.uniqueKeys entity.AuctionEntityMongo.Id ar.Collection →
      (∀ c ∈ creations, ∀ d ∈ ar.Collection, d.Id ≠ c.2.Id) →
      (creations.map (fun c => c.2.Id)).Nodup →
      ∃ docs : List entity.AuctionEntityMongo,
        docs.map (fun d => d.Id) = creations.map (fun c => c.2.Id) ∧
        docs.map (fun d => d.Status) = creations.map (fun c => c.2.Status) ∧
        (ar.run (creations.map
          (fun c => StoreOp.CreateAuction durationStr c.1 none c.2))).Collection
          = ar.Collection ++ docs ∧
        mongo.uniqueKeys entity.AuctionEntityMongo.Id (ar.Collection ++ docs) := by
  induction creations with
  | nil =>
    intro ar hu _ _
    exact ⟨[], rfl, rfl, by simp [AuctionRepository.run], by simpa using hu⟩
  | cons c cs ih =>
    intro ar hu hfresh hnd
    obtain ⟨doc, hid, hst, hstep⟩ := auction.step_CreateAuction_fresh ar durationStr c.1 c.2
      (hfresh c (List.mem_cons_self c cs))
    have hnd' : c.2.Id ∉ cs.map (fun c => c.2.Id) ∧ (cs.map (fun c => c.2.Id)).Nodup := by
      simpa using hnd
    have hu1 : mongo.uniqueKeys entity.AuctionEntityMongo.Id
        (ar.step (StoreOp.CreateAuction durationStr c.1 none c.2)).Collection := by
      rw [hstep]
      unfold mongo.uniqueKeys at hu ⊢
      rw [List.map_append, List.nodup_append]
      refine ⟨hu, by simp, ?_⟩
      intro x hx hx'
      simp only [List.map_cons, List.map_nil, List.mem_singleton] at hx'
      obtain ⟨d, hd, hdx⟩ := List.mem_map.mp hx
      exact hfresh c (List.mem_cons_self c cs) d hd (by rw [hdx, hx', hid])
    have hfresh1 : ∀ c' ∈ cs, ∀ d ∈
        (ar.step (StoreOp.CreateAuction durationStr c.1 none c.2)).Collection,
        d.Id ≠ c'.2.Id := by
      intro c' hc' d hd
      rw [hstep] at hd
      rcases List.mem_append.mp hd with hd | hd
      · exact hfresh c' (List.mem_cons_of_mem c hc') d hd
      · simp only [List.mem_singleton] at hd
        subst hd
        intro h
        apply hnd'.1
        rw [← hid, h]
        exact List.mem_map_of_mem (fun c => c.2.Id) hc'
    obtain ⟨docs, hids, hsts, hrun, hu2⟩ := ih _ hu1 hfresh1 hnd'.2
    refine ⟨doc :: docs, by simp [hid, hids], by simp [hst, hsts], ?_, ?_⟩
    · simp only [List.map_cons, AuctionRepository.run, List.foldl_cons]
      simp only [AuctionRepository.run] at hrun
      rw [hrun, hstep, List.append_assoc]
      rfl
    · rw [hstep, List.append_assoc] at hu2
      exact hu2

/-- The same, read through the scan: after `K` creations of Active auctions with fresh,
pairwise distinct identifiers, run one after another in any order, `FindAuctions` for status
Active returns at least `K` records, with pairwise distinct identifiers, among them every
created auction. -/
lemma auction.scan_after_creations (regex : String → String → Option (String → Bool))
    (durationStr : String) (creations : List (time.Time × entity.Auction))
    (ar : AuctionRepository)
    (hu : mongo.uniqueKeys entity.AuctionEntityMongo.Id ar.Collection)
    (hfresh : ∀ c ∈ creations, ∀ d ∈ ar.Collection, d.Id ≠ c.2.Id)
    (hnd : (creations.map (fun c => c.2.Id)).Nodup)
    (hactive : ∀ c ∈ creations, c.2.Status = entity.Active) :
    ∃ found : List entity.Auction,
      (ar.run (creations.map
        (fun c => StoreOp.CreateAuction durationStr c.1 none c.2))).FindAuctions regex none none
          entity.Active "" "" = .ok found ∧
      creations.length ≤ found.length ∧
      (found.map (fun a => a.Id)).Nodup ∧
      ∀ c ∈ creations, c.2.Id ∈ found.map (fun a => a.Id) := by
  obtain ⟨docs, hids, hsts, hrun, hu2⟩ := auction.run_creations durationStr creations ar hu
    hfresh hnd
  have hdocs : ∀ d ∈ docs, d.Status = entity.Active := by
    intro d hd
    have h1 : d.Status ∈ docs.map (fun d => d.Status) := List.mem_map_of_mem _ hd
    rw [hsts] at h1
    obtain ⟨c, hc, hcs⟩ := List.mem_map.mp h1
    rw [← hcs]
    exact hactive c hc
  have hscan := auction.FindAuctions_without_pattern
    (ar.run (creations.map (fun c => StoreOp.CreateAuction durationStr c.1 none c.2)))
    regex entity.Active ""
  rw [hrun] at hscan
  have hfilter : ∀ d ∈ docs, (fun d : entity.AuctionEntityMongo =>
      decide ((entity.Active < 0 ∨ d.Status = entity.Active) ∧
        (("" : String) = "" ∨ d.Category = ""))) d = true := by
    intro d hd
    simp [hdocs d hd]
  have hkeep : docs.filter (fun d : entity.AuctionEntityMongo =>
      decide ((entity.Active < 0 ∨ d.Status = entity.Active) ∧
        (("" : String) = "" ∨ d.Category = ""))) = docs :=
    List.filter_eq_self.mpr hfilter
  refine ⟨_, hscan, ?_, ?_, ?_⟩
  · rw [List.length_map, List.filter_append, hkeep, List.length_append]
    have : docs.length = creations.length := by
      have := congrArg List.length hids
      simpa using this
    omega
  · rw [List.map_map]
    have hsub : List.Sublist
        ((List.filter (fun d : entity.AuctionEntityMongo =>
          decide ((entity.Active < 0 ∨ d.Status = entity.Active) ∧
            (("" : String) = "" ∨ d.Category = ""))) (ar.Collection ++ docs)).map
            entity.AuctionEntityMongo.Id)
        ((ar.Collection ++ docs).map entity.AuctionEntityMongo.Id) :=
      List.Sublist.map _ (List.filter_sublist _)
    exact List.Nodup.sublist hsub hu2
  · intro c hc
    rw [List.map_map, List.filter_append, hkeep, List.map_append]
    apply List.mem_append_right
    have h1 : c.2.Id ∈ creations.map (fun c => c.2.Id) := List.mem_map_of_mem _ hc
    rw [← hids] at h1
    obtain ⟨d, hd, hdc⟩ := List.mem_map.mp h1
    exact List.mem_map.mpr ⟨d, hd, hdc⟩

end SerialCreation

/-! ## The sweep's query and the bid check -/

section ExpiryAgreement

open auction bid

/-- C18 as stated fails at the expiry instant itself.  For an Active auction stored with
`expires_at = 100` and the clock reading exactly `100 s`, the expired query matches the
auction (`FindExpiredAuctions` returns it), but `IsExpired` is false for the expiry read back
from the store (the clock is not after it) and `CreateBid` stores the bid. -/
theorem C18_query_matches_but_bid_accepted_at_expiry_instant :
    expiredFilter (time.Time.Unix 100000000000)
        ⟨"a1", "Widget", "Tools", "0123456789", entity.New, entity.Active, 0, 100⟩ = true ∧
    (AuctionRepository.mk
        [⟨"a1", "Widget", "Tools", "0123456789", entity.New, entity.Active, 0, 100⟩]
      ).FindExpiredAuctions 100000000000 none none
      = .ok [toAuction
          ⟨"a1", "Widget", "Tools", "0123456789", entity.New, entity.Active, 0, 100⟩] ∧
    (toAuction ⟨"a1", "Widget", "Tools", "0123456789", entity.New, entity.Active, 0, 100⟩
      ).IsExpired 100000000000 = false ∧
    (BidRepository.mk []
        ⟨[⟨"a1", "Widget", "Tools", "0123456789", entity.New, entity.Active, 0, 100⟩]⟩).CreateBid
        100000000000 none none ⟨"b1", "u1", "a1", 10, 5⟩
      = (none,
         ⟨[⟨"b1", "u1", "a1", 10, 0⟩],
          ⟨[⟨"a1", "Widget", "Tools", "0123456789", entity.New, entity.Active, 0, 100⟩]⟩⟩) := by
  refine ⟨by decide, rfl, by decide, rfl⟩

/-- C18 (amended): for every stored Active auction and every instant `now`, the expired query
used by `FindExpiredAuctions` and `closeExpiredAuctions` matches the auction exactly when its
expiry instant is not after `now`, and `IsExpired` is true for the expiry read back from the
store exactly when `now` is after the expiry instant.  So whenever the auction matches the
query and `now` is not the expiry instant itself, `BidRepository.CreateBid` evaluated at `now`
rejects a bid on it with "auction has expired"; and whenever the bid check finds the auction
expired, the query matches it. -/
theorem C18_sweep_query_and_bid_check_after_expiry (br : BidRepository) (now : time.Time)
    (insertFault : Option String) (b : entity.Bid) (d : entity.AuctionEntityMongo)
    (hu : mongo.uniqueKeys entity.AuctionEntityMongo.Id br.AuctionRepository.Collection)
    (hd : d ∈ br.AuctionRepository.Collection) (hid : d.Id = b.AuctionId)
    (hs : d.Status = entity.Active) :
    (expiredFilter (time.Time.Unix now) d = true ↔ time.Unix d.ExpiresAt 0 ≤ now) ∧
    ((toAuction d).IsExpired now = true ↔ time.Unix d.ExpiresAt 0 < now) ∧
    (expiredFilter (time.Time.Unix now) d = true → now ≠ time.Unix d.ExpiresAt 0 →
      (toAuction d).IsExpired now = true ∧
      br.CreateBid now none insertFault b = (some (error.New "auction has expired"), br)) ∧
    ((toAuction d).IsExpired now = true → expiredFilter (time.Time.Unix now) d = true) := by
  have hq : expiredFilter (time.Time.Unix now) d = true ↔ time.Unix d.ExpiresAt 0 ≤ now := by
    simp [expiredFilter, hs, time.le_Unix_iff]
  have hx : (toAuction d).IsExpired now = true ↔ time.Unix d.ExpiresAt 0 < now := by
    simp [entity.Auction.IsExpired, time.Time.After, toAuction]
  refine ⟨hq, hx, ?_, ?_⟩
  · intro hmatch hne
    have hlt : time.Unix d.ExpiresAt 0 < now :=
      lt_of_le_of_ne (hq.mp hmatch) (fun h => hne h.symm)
    have hexp := hx.mpr hlt
    have hfind := auction.FindAuctionById_of_mem br.AuctionRepository d hu hd
    rw [hid] at hfind
    have hs' : (toAuction d).Status = entity.Active := hs
    exact ⟨hexp, by simp [BidRepository.CreateBid, hfind, hs', hexp]⟩
  · intro hexp
    exact hq.mpr (le_of_lt (hx.mp hexp))

/-- C18 (amended) one nanosecond after the expiry instant of the auction above: the query
matches and the bid is rejected. -/
theorem C18_sweep_query_and_bid_check_after_expiry_witness :
    (toAuction ⟨"a1", "Widget", "Tools", "0123456789", entity.New, entity.Active, 0, 100⟩
      ).IsExpired 100000000001 = true ∧
    (BidRepository.mk []
        ⟨[⟨"a1", "Widget", "Tools", "0123456789", entity.New, entity.Active, 0, 100⟩]⟩).CreateBid
        100000000001 none none ⟨"b1", "u1", "a1", 10, 5⟩
      = (some (error.New "auction has expired"),
         ⟨[], ⟨[⟨"a1", "Widget", "Tools", "0123456789", entity.New, entity.Active, 0, 100⟩]⟩⟩) :=
  (C18_sweep_query_and_bid_check_after_expiry
    ⟨[], ⟨[⟨"a1", "Widget", "Tools", "0123456789", entity.New, entity.Active, 0, 100⟩]⟩⟩
    100000000001 none ⟨"b1", "u1", "a1", 10, 5⟩
    ⟨"a1", "Widget", "Tools", "0123456789", entity.New, entity.Active, 0, 100⟩
    (by decide) (by simp) rfl rfl).2.2.1 (by decide) (by decide)

end ExpiryAgreement

/-! ## The ticker of the expiration checker -/

section Ticker

open auction

/-- For the decimal integers `n` with `1 <= n <= 9223372036` the interval is `n` seconds,
which is positive, and the ticker is built. -/
lemma auction.getCheckInterval_of_small_positive (n : Int) (hlo : 1 ≤ n)
    (hhi : n ≤ 9223372036) :
    getCheckInterval (toString n) = n * time.Second ∧ 0 < getCheckInterval (toString n) ∧
    startAuctionExpirationChecker (toString n) = .ok (n * time.Second) := by
  have hp := strconv.parseSigned_toString n
  have ha : strconv.Atoi (toString n) = some n := by
    simp only [strconv.Atoi, hp.1]
    apply if_pos
    constructor <;> omega
  have hv : getCheckInterval (toString n) = n * time.Second := by
    unfold getCheckInterval
    rw [if_neg hp.2, ha]
    show time.wrapInt64 (n * 1000000000) = n * 1000000000
    apply time.wrapInt64_of_fits <;> omega
  have hpos : 0 < n * time.Second := by
    show (0 : Int) < n * 1000000000
    omega
  refine ⟨hv, by rw [hv]; exact hpos, ?_⟩
  unfold startAuctionExpirationChecker time.NewTicker
  simp only [hv]
  rw [if_neg (not_le.mpr hpos)]

/-- C19, the code at failing inputs.  With `AUCTION_CHECK_INTERVAL=0` the function
`getCheckInterval` returns the zero duration, with `-5` a negative one, and with `9223372037`
the product with `time.Second` wraps around to a negative one: none is strictly positive, and
`time.NewTicker` panics on each when `startAuctionExpirationChecker` builds its ticker.  The
empty and the non-numeric value give the positive default of 10 seconds, and `1` gives one
second. -/
theorem C19_check_interval_not_always_positive :
    auction.getCheckInterval "0" = 0 ∧
    auction.startAuctionExpirationChecker "0" = .error "non-positive interval for NewTicker" ∧
    auction.getCheckInterval "-5" = -5 * time.Second ∧
    auction.startAuctionExpirationChecker "-5" = .error "non-positive interval for NewTicker" ∧
    auction.getCheckInterval "9223372037" = -9223372036709551616 ∧
    auction.startAuctionExpirationChecker "9223372037"
      = .error "non-positive interval for NewTicker" ∧
    auction.getCheckInterval "" = 10 * time.Second ∧
    auction.getCheckInterval "invalid" = 10 * time.Second ∧
    auction.startAuctionExpirationChecker "1" = .ok time.Second := by
  refine ⟨by decide, rfl, by decide, rfl, by decide, rfl, by decide, by decide, rfl⟩

end Ticker
